import Mathlib

/-!
Verification of the conversation-ingest engine (format detection and the four
format parsers) of the `cup` repository.

The TypeScript source is shallowly embedded: each source function becomes a
Lean definition of the same name (where Lean allows it), operating on
`List Char` / `String` data.  The JavaScript host primitive `new Date(string)`
(whose behaviour on non-ISO strings is implementation-defined by ECMAScript) is
modelled as an explicit `JsHost` parameter; every other primitive
(`parseFloat`, `Number`, `parseInt`, `trim`, `split`, the regular expressions)
is implemented concretely, restricted to the value domains the engine
exercises:

* `Number`/`parseFloat` are modelled over decimal strings; exotic inputs
  (hex, exponents, `Infinity`) are modelled as NaN (`none`).  A fractional
  `parseFloat` result is kept exact as `numerator / 10 ^ k`, so the
  seconds-vs-milliseconds threshold test and `Math.floor` are exact; IEEE-754
  double rounding is out of scope.
* A non-numeric non-empty `ts` field, for which JavaScript propagates `NaN`
  through arithmetic, is modelled as an unresolved timestamp (`none`).
* JS object field access is modelled over a JSON value tree (`Json`); objects
  are assumed duplicate-key free, as produced by `JSON.parse`.
-/

/-! ## JavaScript string primitives -/

/-- The `\s` character class (and `String.prototype.trim` class), restricted to
the ASCII whitespace characters; the exotic Unicode members are unused by the
analyzed inputs. -/
def jsWs (c : Char) : Bool :=
  c == ' ' || c == '\t' || c == '\n' || c == '\r' || c == '\x0b' || c == '\x0c'

/-- Trim `jsWs` from both ends of a character list. -/
def trimList (cs : List Char) : List Char :=
  ((cs.dropWhile jsWs).reverse.dropWhile jsWs).reverse

/-- Model of `String.prototype.trim`. -/
def jsTrim (s : String) : String :=
  String.mk (trimList s.data)

/-- Model of `text.split(/\r?\n/)` on a character list. -/
def splitLinesL : List Char → List (List Char)
  | [] => [[]]
  | '\r' :: '\n' :: rest => [] :: splitLinesL rest
  | '\n' :: rest => [] :: splitLinesL rest
  | c :: rest =>
    match splitLinesL rest with
    | [] => [[c]]
    | l :: ls => (c :: l) :: ls

/-- Model of `s.split(sep)` where every separator is a single character matching `p`
(used for `split(":")` and `split(/[\/\-]/)`); empty fields are kept, as in
JavaScript. -/
def splitOnP (p : Char → Bool) : List Char → List (List Char)
  | [] => [[]]
  | c :: rest =>
    if p c then [] :: splitOnP p rest
    else
      match splitOnP p rest with
      | [] => [[c]]
      | l :: ls => (c :: l) :: ls

/-- Numeric value of a list of decimal digits. -/
def digitsVal (ds : List Char) : Nat :=
  ds.foldl (fun a c => a * 10 + (c.toNat - 48)) 0

/-- Model of `Number(s)`, restricted to optionally-signed decimal integer strings:
`none` models NaN.  (JavaScript additionally accepts fractional, hex and
exponent forms; those are modelled as NaN here — no claim exercises them.)
The empty or all-whitespace string converts to `0`, as in JavaScript. -/
def jsNumberInt (s : String) : Option Int :=
  match trimList s.data with
  | [] => some 0
  | '-' :: ds => if ds ≠ [] ∧ ds.all Char.isDigit then some (-(digitsVal ds : Int)) else none
  | '+' :: ds => if ds ≠ [] ∧ ds.all Char.isDigit then some (digitsVal ds) else none
  | ds => if ds.all Char.isDigit then some (digitsVal ds) else none

/-- Model of `parseFloat(s)`, restricted to decimal forms: the result `(n, k)` denotes
the exact rational `n / 10 ^ k`; `none` models NaN.  Trailing junk is ignored,
as in JavaScript. -/
def jsParseFloat (s : String) : Option (Int × Nat) :=
  let t := s.data.dropWhile jsWs
  let signAndRest : Bool × List Char :=
    match t with
    | '-' :: r => (true, r)
    | '+' :: r => (false, r)
    | r => (false, r)
  let neg := signAndRest.1
  let t1 := signAndRest.2
  let intPart := t1.takeWhile Char.isDigit
  let t2 := t1.dropWhile Char.isDigit
  let fracPart :=
    match t2 with
    | '.' :: r => r.takeWhile Char.isDigit
    | _ => []
  if intPart = [] ∧ fracPart = [] then none
  else
    let mag : Int := (digitsVal (intPart ++ fracPart) : Int)
    some (if neg then -mag else mag, fracPart.length)

/-- Model of `parseInt(s, 10)`: leading whitespace and sign, then a maximal digit run;
`none` models NaN. -/
def jsParseInt (s : String) : Option Int :=
  let t := s.data.dropWhile jsWs
  let signAndRest : Bool × List Char :=
    match t with
    | '-' :: r => (true, r)
    | '+' :: r => (false, r)
    | r => (false, r)
  let ds := signAndRest.2.takeWhile Char.isDigit
  if ds = [] then none
  else some (if signAndRest.1 then -(digitsVal ds : Int) else (digitsVal ds : Int))

/-- Model of `Math.min(...l)` for a non-empty list (the call sites guard emptiness). -/
def jsMinList : List Int → Int
  | [] => 0
  | x :: xs => xs.foldl min x

/-- JavaScript truthiness of an optional string: `undefined` and `""` are
falsy.  `truthy a <|> truthy b` models `a || b` on string fields. -/
def truthy : Option String → Option String
  | some s => if s = "" then none else some s
  | none => none

/-! ## Raw values and the host -/

/-- A structured-or-text raw input value (the engine's `unknown`-typed data).
A text payload is `Json.str`. -/
inductive Json where
  | null
  | bool (b : Bool)
  | num (n : Int)
  | str (s : String)
  | arr (elems : List Json)
  | obj (fields : List (String × Json))
deriving Repr

/-- Property lookup on an object's field list (objects are duplicate-free). -/
def jlookup (fields : List (String × Json)) (k : String) : Option Json :=
  match fields.find? (fun p => p.1 == k) with
  | some p => some p.2
  | none => none

/-- The `in` operator: key presence (a `null` value still counts as present). -/
def jhasKey (fields : List (String × Json)) (k : String) : Bool :=
  (jlookup fields k).isSome

/-- String-valued field access. -/
def jstr? : Json → Option String
  | .str s => some s
  | _ => none

/-- Number-valued field access (the engine only consumes integral numbers). -/
def jint? : Json → Option Int
  | .num n => some n
  | _ => none

/-- The `new Date(string)` host primitive: `some ms` is a successful parse to
epoch milliseconds, `none` an Invalid Date.  Non-ISO parsing is
implementation-defined in ECMAScript, hence the explicit parameter. -/
structure JsHost where
  dateParse : String → Option Int

/-! ## Canonical data model (`types.ts`) -/

inductive InputFormat where
  | jsonTranscript
  | chatLog
  | whatsapp
  | srt
  | unknown
deriving DecidableEq, Repr

structure NormalizedTurn where
  speaker : String
  text : String
  startMs : Option Int
  endMs : Option Int
  turnIndex : Nat
  metadata : List (String × String)
deriving DecidableEq, Repr

structure NormalizedConversation where
  title : String
  source : String
  turns : List NormalizedTurn
  metadata : List (String × Option String)
deriving DecidableEq, Repr

/-- Source interface `JsonTranscriptEntry`.  The interface declares `speaker`
and `text` required, but the shape validator admits entries lacking `speaker`,
so it is optional here; `end` is a Lean keyword, rendered `endVal`. -/
structure JsonTranscriptEntry where
  speaker : Option String
  timestamp : Option String
  start : Option Int
  endVal : Option Int
  text : String
deriving DecidableEq, Repr

structure JsonTranscriptInput where
  title : Option String
  entries : List JsonTranscriptEntry
deriving Repr

structure ChatLogMessage where
  user : Option String
  username : Option String
  author : Option String
  sender : Option String
  timestamp : Option String
  ts : Option String
  date : Option String
  time : Option String
  text : Option String
  message : Option String
  content : Option String
deriving DecidableEq, Repr

structure ChatLogInput where
  title : Option String
  channel : Option String
  messages : List ChatLogMessage
deriving Repr

structure ParseResult where
  success : Bool
  data : Option NormalizedConversation
  error : Option String
  format : Option InputFormat
deriving Repr

/-- Indexed map, modelling `.map((x, i) => ...)` and sequential
`push({... turnIndex: turns.length})` loops. -/
def mapWithIndex (f : Nat → α → β) : Nat → List α → List β
  | _, [] => []
  | n, a :: as => f n a :: mapWithIndex f (n + 1) as

/-! ## JSON transcript parser (`parsers/json-transcript.ts`) -/

namespace JsonTranscript

/-- The colon-delimited stage of `parseTimestampToMs`: `HH:MM:SS` / `MM:SS` /
`SS`, any non-numeric component (or another part count) unresolved. -/
def colonTimestampToMs (s : String) : Option Int :=
  let parts := (splitOnP (· == ':') s.data).map (fun p => jsNumberInt (String.mk p))
  if parts.any (·.isNone) then none
  else
    match parts with
    | [some h, some m, some sec] => some ((h * 3600 + m * 60 + sec) * 1000)
    | [some m, some sec] => some ((m * 60 + sec) * 1000)
    | [some sec] => some (sec * 1000)
    | _ => none

/-- Source `parseTimestampToMs` of `json-transcript.ts`: ISO-8601 (host)
first, else the colon-delimited formats. -/
def parseTimestampToMs (host : JsHost) (timestamp : Option String) : Option Int :=
  match truthy timestamp with
  | none => none
  | some s =>
    match host.dateParse s with
    | some t => some t
    | none => colonTimestampToMs s

theorem parseTimestampToMs_dateParse_some {host : JsHost} {s : String} {v : Int}
    (hne : s ≠ "") (h : host.dateParse s = some v) :
    parseTimestampToMs host (some s) = some v := by
  simp [parseTimestampToMs, truthy, hne, h]

theorem parseTimestampToMs_dateParse_none {host : JsHost} {s : String}
    (hne : s ≠ "") (h : host.dateParse s = none) :
    parseTimestampToMs host (some s) = colonTimestampToMs s := by
  simp [parseTimestampToMs, truthy, hne, h]

/-- Per-entry `startMs`: `entry.start ?? parseTimestampToMs(entry.timestamp)`. -/
def entryStartMs (host : JsHost) (entry : JsonTranscriptEntry) : Option Int :=
  match entry.start with
  | some v => some v
  | none => parseTimestampToMs host entry.timestamp

def parseJsonTranscript (host : JsHost) (input : JsonTranscriptInput)
    (title : Option String) : NormalizedConversation :=
  { title := (truthy title <|> truthy input.title).getD "Untitled Transcript"
    source := "json-transcript"
    turns :=
      mapWithIndex (fun index entry =>
        { speaker := (truthy entry.speaker).getD "Unknown"
          text := entry.text
          startMs := entryStartMs host entry
          endMs := entry.endVal
          turnIndex := index
          metadata := [] }) 0 input.entries
    metadata := [] }

/-- Source `isJsonTranscript`.  In JS an array is also `typeof "object"`, but
an array's `entries` property is the built-in method, not an array, so arrays
fail the check; the `obj`-only match below yields the same outcome. -/
def isJsonTranscript (data : Json) : Bool :=
  match data with
  | .obj fields =>
    match jlookup fields "entries" with
    | some (.arr entries) =>
      (entries.take 3).all fun e =>
        match e with
        | .obj ef => jhasKey ef "text" && (jhasKey ef "speaker" || jhasKey ef "timestamp")
        | _ => false
    | _ => false
  | _ => false

/-- Bridge from the raw value to the typed input (the TS type guard is a cast;
non-string field values, which no claim exercises, decode to absent/empty). -/
def decodeEntry (j : Json) : JsonTranscriptEntry :=
  let f := match j with | .obj fs => fs | _ => []
  { speaker := (jlookup f "speaker").bind jstr?
    timestamp := (jlookup f "timestamp").bind jstr?
    start := (jlookup f "start").bind jint?
    endVal := (jlookup f "end").bind jint?
    text := ((jlookup f "text").bind jstr?).getD "" }

def decodeInput (j : Json) : JsonTranscriptInput :=
  let f := match j with | .obj fs => fs | _ => []
  { title := (jlookup f "title").bind jstr?
    entries :=
      match jlookup f "entries" with
      | some (.arr es) => es.map decodeEntry
      | _ => [] }

end JsonTranscript

/-! ## Chat log parser (`parsers/chat-log.ts`) -/

namespace ChatLog

def extractSpeaker (message : ChatLogMessage) : String :=
  (truthy message.user <|> truthy message.username <|> truthy message.author <|>
    truthy message.sender).getD "Unknown"

def extractText (message : ChatLogMessage) : String :=
  (truthy message.text <|> truthy message.message <|> truthy message.content).getD ""

/-- The `date` (+ optional `time`) fallback branch of `parseTimestampToMs`. -/
def tsFromDate (host : JsHost) (message : ChatLogMessage) : Option Int :=
  match truthy message.date with
  | some d =>
    let dateStr :=
      match truthy message.time with
      | some t => d ++ " " ++ t
      | none => d
    host.dateParse dateStr
  | none => none

/-- Source `parseTimestampToMs` of `chat-log.ts`: Slack-style `ts` first (Unix
seconds below the year-2100 threshold `4102444800`, else milliseconds), then
ISO `timestamp`, then `date [time]`. -/
def parseTimestampToMs (host : JsHost) (message : ChatLogMessage) : Option Int :=
  match truthy message.ts with
  | some s =>
    match jsParseFloat s with
    | some (n, k) =>
      some (if n < 4102444800 * (10 ^ k : Int)
            then Int.fdiv (n * 1000) (10 ^ k)
            else Int.fdiv n (10 ^ k))
    | none => none
  | none =>
    match truthy message.timestamp with
    | some s =>
      match host.dateParse s with
      | some t => some t
      | none => tsFromDate host message
    | none => tsFromDate host message

/-- Truth of `comparator(a, b) < 0` for the source sort comparator (`0` when either
timestamp is unresolved, else `tsA - tsB`). -/
def cmpLt (host : JsHost) (a b : ChatLogMessage) : Bool :=
  match parseTimestampToMs host a, parseTimestampToMs host b with
  | some x, some y => decide (x < y)
  | _, _ => false

/-- Stable insertion of an input-earlier element: it stays before every list
element not strictly smaller under the comparator. -/
def insertSorted (host : JsHost) (x : ChatLogMessage) :
    List ChatLogMessage → List ChatLogMessage
  | [] => [x]
  | y :: ys => if cmpLt host y x then y :: insertSorted host x ys else x :: y :: ys

/-- Model of `[...].sort(comparator)`.  ECMAScript requires the sort to be
stable; for a consistent comparator (every timestamp resolved) all stable
sorts agree, so insertion sort is a faithful model there.  With unresolved
ties the comparator is inconsistent and the engine's order is already
implementation-dependent (spec §9 flags this). -/
def sortMessages (host : JsHost) : List ChatLogMessage → List ChatLogMessage
  | [] => []
  | x :: xs => insertSorted host x (sortMessages host xs)

/-- The emission predicate: messages whose extracted text trims empty are
dropped. -/
def keepMsg (message : ChatLogMessage) : Bool :=
  jsTrim (extractText message) != ""

/-- The rebasing baseline: minimum resolved timestamp over the sorted (still
unfiltered) messages; `0` when none resolve. -/
def baseTimestamp (host : JsHost) (sortedMessages : List ChatLogMessage) : Int :=
  let timestamps := sortedMessages.filterMap (parseTimestampToMs host)
  if timestamps.length > 0 then jsMinList timestamps else 0

def parseChatLog (host : JsHost) (input : ChatLogInput)
    (title : Option String) : NormalizedConversation :=
  let sortedMessages := sortMessages host input.messages
  let base := baseTimestamp host sortedMessages
  { title := (truthy title <|> truthy input.title <|> truthy input.channel).getD "Untitled Chat"
    source := "chat-log"
    turns :=
      mapWithIndex (fun index message =>
        { speaker := extractSpeaker message
          text := extractText message
          startMs := (parseTimestampToMs host message).map (fun t => t - base)
          endMs := none
          turnIndex := index
          metadata := [] }) 0 (sortedMessages.filter keepMsg)
    metadata := [("channel", input.channel)] }

/-- Source `isChatLog`. -/
def isChatLog (data : Json) : Bool :=
  match data with
  | .obj fields =>
    match jlookup fields "messages" with
    | some (.arr msgs) =>
      (msgs.take 3).all fun m =>
        match m with
        | .obj mf =>
          (jhasKey mf "text" || jhasKey mf "message" || jhasKey mf "content") ||
          ((jhasKey mf "user" || jhasKey mf "username" || jhasKey mf "author" ||
              jhasKey mf "sender") &&
            (jhasKey mf "ts" || jhasKey mf "timestamp" || jhasKey mf "date"))
        | _ => false
    | _ => false
  | _ => false

def decodeMessage (j : Json) : ChatLogMessage :=
  let f := match j with | .obj fs => fs | _ => []
  { user := (jlookup f "user").bind jstr?
    username := (jlookup f "username").bind jstr?
    author := (jlookup f "author").bind jstr?
    sender := (jlookup f "sender").bind jstr?
    timestamp := (jlookup f "timestamp").bind jstr?
    ts := (jlookup f "ts").bind jstr?
    date := (jlookup f "date").bind jstr?
    time := (jlookup f "time").bind jstr?
    text := (jlookup f "text").bind jstr?
    message := (jlookup f "message").bind jstr?
    content := (jlookup f "content").bind jstr? }

def decodeInput (j : Json) : ChatLogInput :=
  let f := match j with | .obj fs => fs | _ => []
  { title := (jlookup f "title").bind jstr?
    channel := (jlookup f "channel").bind jstr?
    messages :=
      match jlookup f "messages" with
      | some (.arr ms) => ms.map decodeMessage
      | _ => [] }

end ChatLog

/-! ## WhatsApp text parser (`parsers/whatsapp.ts`)

The three header-line regular expressions are compiled to deterministic
character-list matchers.  Greedy quantifier semantics is preserved: every
bounded digit quantifier is followed by a non-digit element, so it must
consume the whole maximal digit run; genuinely ambiguous choice points (the
optional `:SS` seconds group and the optional `AM|PM` token) are kept as
explicit alternative lists tried in the regex backtracking order. -/

namespace WhatsApp

structure ParsedLine where
  date : String
  time : String
  speaker : String
  text : String
deriving DecidableEq, Repr

/-- Matching of `\d{1,2}\/\d{1,2}\/\d{2,4}` at the line start, returning the
captured characters and the rest. -/
def matchDate (cs : List Char) : Option (List Char × List Char) :=
  let (d1, r1) := cs.span Char.isDigit
  if d1.length < 1 || d1.length > 2 then none
  else
    match r1 with
    | '/' :: r2 =>
      let (d2, r3) := r2.span Char.isDigit
      if d2.length < 1 || d2.length > 2 then none
      else
        match r3 with
        | '/' :: r4 =>
          let (d3, r5) := r4.span Char.isDigit
          if d3.length < 2 || d3.length > 4 then none
          else some (d1 ++ '/' :: d2 ++ '/' :: d3, r5)
        | _ => none
    | _ => none

/-- Matching of `,?\s+` (at least one whitespace; a comma not followed by
whitespace fails, since backtracking over `,?` re-reads the comma as `\s+`). -/
def matchCommaWs (cs : List Char) : Option (List Char) :=
  let cs1 := match cs with | ',' :: r => r | r => r
  let (ws, r) := cs1.span jsWs
  if ws.isEmpty then none else some r

/-- Alternatives for `\d{1,2}:\d{2}(?::\d{2})?` in backtracking order
(seconds consumed first), each as (captured chars, rest). -/
def timeAlts (cs : List Char) : List (List Char × List Char) :=
  let (h, r1) := cs.span Char.isDigit
  if h.length < 1 || h.length > 2 then []
  else
    match r1 with
    | ':' :: r2 =>
      let (mns, r3) := r2.span Char.isDigit
      if mns.length ≠ 2 then []
      else
        let noSec := (h ++ ':' :: mns, r3)
        match r3 with
        | ':' :: r4 =>
          let (secs, _) := r4.span Char.isDigit
          if secs.length ≥ 2 then
            (h ++ ':' :: mns ++ ':' :: secs.take 2, r4.drop 2) :: [noSec]
          else [noSec]
        | _ => [noSec]
    | _ => []

/-- Alternatives for the `\s*(?:AM|PM)?` tail of the US-format time group (the
greedily consumed whitespace stays inside the capture in both branches). -/
def ampmAlts (alt : List Char × List Char) : List (List Char × List Char) :=
  let (ws, r1) := alt.2.span jsWs
  match r1 with
  | a :: m :: r2 =>
    if (a.toLower == 'a' || a.toLower == 'p') && m.toLower == 'm' then
      (alt.1 ++ ws ++ [a, m], r2) :: [(alt.1 ++ ws, r1)]
    else [(alt.1 ++ ws, r1)]
  | _ => [(alt.1 ++ ws, r1)]

/-- Matching of `([^:]+):\s*(.+)$`: the speaker capture is everything up to
the first colon (non-empty), the text capture everything after it (non-empty);
both are returned trimmed, as the source trims the groups.  Backtracking over
the interior `\s*` makes the segments' own whitespace irrelevant after the
trim.  `.` cannot match a stray carriage return (a line terminator). -/
def speakerText (r : List Char) : Option (String × String) :=
  let pre := r.takeWhile (fun c => c != ':')
  match r.drop pre.length with
  | ':' :: post =>
    if pre.isEmpty || post.isEmpty || post.contains '\r' then none
    else some (String.mk (trimList pre), String.mk (trimList post))
  | _ => none

/-- Matching of `\s*[-–]\s*([^:]+):\s*(.+)$`. -/
def dashTail (r : List Char) : Option (String × String) :=
  match r.dropWhile jsWs with
  | c :: r2 => if c == '-' || c == '–' then speakerText r2 else none
  | [] => none

def firstSome : List (Option α) → Option α
  | [] => none
  | o :: os => o <|> firstSome os

/-- US format `^(\d{1,2}\/\d{1,2}\/\d{2,4}),?\s+(\d{1,2}:\d{2}(?::\d{2})?\s*(?:AM|PM)?)\s*[-–]\s*([^:]+):\s*(.+)$/i`. -/
def tryUs (cs : List Char) : Option ParsedLine := do
  let (date, r1) ← matchDate cs
  let r2 ← matchCommaWs r1
  firstSome (((timeAlts r2).flatMap ampmAlts).map fun alt =>
    (dashTail alt.2).map fun st =>
      ⟨String.mk date, String.mk alt.1, st.1, st.2⟩)

/-- EU format `^(\d{1,2}\/\d{1,2}\/\d{2,4}),?\s+(\d{1,2}:\d{2}(?::\d{2})?)\s*[-–]\s*([^:]+):\s*(.+)$/i`
(subsumed by the US pattern, kept for fidelity). -/
def tryEu (cs : List Char) : Option ParsedLine := do
  let (date, r1) ← matchDate cs
  let r2 ← matchCommaWs r1
  firstSome ((timeAlts r2).map fun alt =>
    (dashTail alt.2).map fun st =>
      ⟨String.mk date, String.mk alt.1, st.1, st.2⟩)

/-- Bracket format `^\[(\d{1,2}\/\d{1,2}\/\d{2,4}),?\s+(\d{1,2}:\d{2}(?::\d{2})?)\]\s*([^:]+):\s*(.+)$/i`. -/
def tryBracket (cs : List Char) : Option ParsedLine :=
  match cs with
  | '[' :: cs1 => do
    let (date, r1) ← matchDate cs1
    let r2 ← matchCommaWs r1
    firstSome ((timeAlts r2).map fun alt =>
      match alt.2 with
      | ']' :: r3 =>
        (speakerText r3).map fun st => ⟨String.mk date, String.mk alt.1, st.1, st.2⟩
      | _ => none)
  | _ => none

/-- Source `parseLine`: the three `WHATSAPP_PATTERNS` in order. -/
def parseLine (line : List Char) : Option ParsedLine :=
  tryUs line <|> tryEu line <|> tryBracket line

/-- Model of `Number(x).toString()` in the date-heuristic templates (`"NaN"` when the
part was not numeric, exactly as JS stringifies it). -/
def numToStr : Option Int → String
  | some n => toString n
  | none => "NaN"

/-- Model of `s.padStart(2, "0")`. -/
def padStart2 (s : String) : String :=
  if s.length ≥ 2 then s else String.mk (List.replicate (2 - s.length) '0') ++ s

/-- Source `parseDateTime`: direct host parse of the `/`→`-` normalised
combined string, then the `a > 12 ⇒ day-first` disambiguation heuristic. -/
def parseDateTime (host : JsHost) (date time : String) : Option Int :=
  let normalizedDate := String.mk (date.data.map fun c => if c == '/' then '-' else c)
  match host.dateParse (normalizedDate ++ " " ++ time) with
  | some t => some t
  | none =>
    let parts := (splitOnP (fun c => c == '/' || c == '-') date.data).map
      (fun p => jsNumberInt (String.mk p))
    if parts.length == 3 then
      let a := parts.getD 0 none
      let b := parts.getD 1 none
      let c := parts.getD 2 none
      let year : Option Int :=
        match c with
        | some cv => some (if cv < 100 then 2000 + cv else cv)
        | none => none
      let dayFirst : Bool := match a with | some av => decide (av > 12) | none => false
      if dayFirst then
        host.dateParse (numToStr year ++ "-" ++ padStart2 (numToStr b) ++ "-" ++
          padStart2 (numToStr a) ++ " " ++ time)
      else
        host.dateParse (numToStr year ++ "-" ++ padStart2 (numToStr a) ++ "-" ++
          padStart2 (numToStr b) ++ " " ++ time)
    else none

/-- The turn pushed when a header line (or end of input) flushes the
accumulated message. -/
def flushTurn (host : JsHost) (cur : ParsedLine) (text : String) (idx : Nat) :
    NormalizedTurn :=
  { speaker := cur.speaker
    text := jsTrim text
    startMs := parseDateTime host cur.date cur.time
    endMs := none
    turnIndex := idx
    metadata := [("originalDate", cur.date), ("originalTime", cur.time)] }

/-- The line loop of `parseWhatsApp`: `currentTurn`/`currentText` accumulator
with flush on the next header match and at end of input. -/
def waLoop (host : JsHost) :
    List (List Char) → Option ParsedLine → String → List NormalizedTurn →
      List NormalizedTurn
  | [], none, _, turns => turns
  | [], some cur, curText, turns => turns ++ [flushTurn host cur curText turns.length]
  | line :: rest, cur, curText, turns =>
    match parseLine line with
    | some parsed =>
      match cur with
      | some c =>
        waLoop host rest (some parsed) parsed.text
          (turns ++ [flushTurn host c curText turns.length])
      | none => waLoop host rest (some parsed) parsed.text turns
    | none =>
      match cur with
      | some c => waLoop host rest (some c) (curText ++ "\n" ++ String.mk line) turns
      | none => waLoop host rest none curText turns

/-- The final normalisation pass: when the first turn's timestamp resolved,
every resolved `startMs` is rebased relative to it. -/
def rebase : List NormalizedTurn → List NormalizedTurn
  | [] => []
  | t0 :: rest =>
    match t0.startMs with
    | some base => (t0 :: rest).map fun t => { t with startMs := t.startMs.map (· - base) }
    | none => t0 :: rest

/-- Model of `text.split(/\r?\n/).filter(line => line.trim())`. -/
def waLines (text : String) : List (List Char) :=
  (splitLinesL text.data).filter (fun l => !(trimList l).isEmpty)

/-- The turn list before the rebasing pass. -/
def rawTurns (host : JsHost) (text : String) : List NormalizedTurn :=
  waLoop host (waLines text) none "" []

def parseWhatsApp (host : JsHost) (text : String) (title : Option String) :
    NormalizedConversation :=
  { title := (truthy title).getD "WhatsApp Chat"
    source := "whatsapp"
    turns := rebase (rawTurns host text)
    metadata := [] }

/-- Source `isWhatsAppText`.  The `matches / samplSize >= 0.3` float test is
rendered as `10 * matches ≥ 3 * samplSize`: with `samplSize ≤ 10` the only
fraction whose IEEE-754 comparison against the double nearest `0.3` could
differ from the exact rational comparison is `3/10`, and for it both agree. -/
def isWhatsAppText (text : String) : Bool :=
  let lines := waLines text
  if lines.length < 2 then false
  else
    let samplSize := min lines.length 10
    let matchCount := ((lines.take samplSize).filter (fun l => (parseLine l).isSome)).length
    decide (10 * matchCount ≥ 3 * samplSize)

end WhatsApp

/-! ## SRT parser (`parsers/srt.ts`) -/

namespace Srt

structure SrtBlock where
  index : Int
  startMs : Int
  endMs : Int
  text : String
deriving DecidableEq, Repr

/-- Matching of `(\d{1,2}):(\d{2}):(\d{2})[,.](\d{3})` at the current
position: numeric groups, captured characters, rest.  As the fixed-width
quantifiers are each followed by a non-digit element, matching at a position
is deterministic; the unanchored search is the caller's loop. -/
def matchTimeAt (cs : List Char) :
    Option ((Nat × Nat × Nat × Nat) × List Char × List Char) :=
  let (h, r1) := cs.span Char.isDigit
  if h.length < 1 || h.length > 2 then none
  else
    match r1 with
    | ':' :: r2 =>
      let (mns, r3) := r2.span Char.isDigit
      if mns.length ≠ 2 then none
      else
        match r3 with
        | ':' :: r4 =>
          let (secs, r5) := r4.span Char.isDigit
          if secs.length ≠ 2 then none
          else
            match r5 with
            | sep :: r6 =>
              if sep == ',' || sep == '.' then
                let (ms, _) := r6.span Char.isDigit
                if ms.length ≥ 3 then
                  some ((digitsVal h, digitsVal mns, digitsVal secs, digitsVal (ms.take 3)),
                    h ++ ':' :: mns ++ ':' :: secs ++ sep :: ms.take 3, r6.drop 3)
                else none
              else none
            | [] => none
        | _ => none
    | _ => none

/-- Leftmost unanchored search for the time pattern. -/
def searchTime : List Char → Option ((Nat × Nat × Nat × Nat) × List Char × List Char)
  | [] => none
  | cs@(_ :: rest) => matchTimeAt cs <|> searchTime rest

/-- Source `parseTimestamp`: `H*3600000 + M*60000 + S*1000 + mmm`, `0` when
the pattern is absent. -/
def parseTimestamp (timestamp : String) : Int :=
  match searchTime timestamp.data with
  | some ((h, m, s, ms), _, _) => ((h * 3600000 + m * 60000 + s * 1000 + ms : Nat) : Int)
  | none => 0

/-- Matching of the cue range `(time)\s*-->\s*(time)` at the current
position, returning the two captured timestamp strings. -/
def matchRangeAt (cs : List Char) : Option (String × String) :=
  match matchTimeAt cs with
  | some (_, cap1, r1) =>
    match r1.dropWhile jsWs with
    | '-' :: '-' :: '>' :: r3 =>
      match matchTimeAt (r3.dropWhile jsWs) with
      | some (_, cap2, _) => some (String.mk cap1, String.mk cap2)
      | none => none
    | _ => none
  | none => none

/-- Leftmost unanchored search for the cue range pattern. -/
def searchRange : List Char → Option (String × String)
  | [] => none
  | cs@(_ :: rest) => matchRangeAt cs <|> searchRange rest

/-- The `[A-Za-z0-9\s]` character class of the `Name:` speaker pattern. -/
def nameAlnumWs (c : Char) : Bool :=
  c.isAlpha || c.isDigit || jsWs c

/-- The first speaker pattern `^([A-Za-z][A-Za-z0-9\s]{0,20}):\s*(.+)$/s`:
the greedy bounded class run must stop at the first non-class character, so
the pattern matches exactly when that character is a colon at position ≤ 21
followed by a non-empty remainder; both captures are trimmed by the caller. -/
def srtColonPat (text : String) : Option (String × String) :=
  match text.data with
  | c :: rest =>
    if c.isAlpha then
      match rest.span nameAlnumWs with
      | (run, ':' :: post) =>
        if run.length ≤ 20 && !post.isEmpty then
          some (String.mk (trimList (c :: run)), String.mk (trimList post))
        else none
      | _ => none
    else none
  | [] => none

/-- The second speaker pattern `^\[([^\]]+)\]\s*(.+)$/s`. -/
def srtBracketPat (text : String) : Option (String × String) :=
  match text.data with
  | '[' :: rest =>
    match rest.span (fun ch => ch != ']') with
    | (nm, ']' :: post) =>
      if !nm.isEmpty && !post.isEmpty then
        some (String.mk (trimList nm), String.mk (trimList post))
      else none
    | _ => none
  | _ => none

/-- The third speaker pattern `^\(([^)]+)\)\s*(.+)$/s`. -/
def srtParenPat (text : String) : Option (String × String) :=
  match text.data with
  | '(' :: rest =>
    match rest.span (fun ch => ch != ')') with
    | (nm, ')' :: post) =>
      if !nm.isEmpty && !post.isEmpty then
        some (String.mk (trimList nm), String.mk (trimList post))
      else none
    | _ => none
  | _ => none

/-- Source `extractSpeaker`: `Name: text`, `[Name] text`, `(Name) text` in
order (all with `/s`, so the patterns may span joined lines), else
`("Unknown", whole text)`. -/
def extractSpeaker (text : String) : String × String :=
  match srtColonPat text with
  | some r => r
  | none =>
    match srtBracketPat text with
    | some r => r
    | none =>
      match srtParenPat text with
      | some r => r
      | none => ("Unknown", text)

/-- One step of the `split(/\n\s*\n/)` separator: after an initial `\n`, the
greedy `\s*\n` consumes the whitespace run up to and including its last
newline (if it has one). -/
def sepSkip (rest : List Char) : Option (List Char) :=
  let ws := rest.takeWhile jsWs
  let tailNoNl := ws.reverse.takeWhile (fun c => c != '\n')
  if tailNoNl.length == ws.length then none
  else some (rest.drop (ws.length - tailNoNl.length))

/-- Model of `text.split(/\n\s*\n/)` by fuel recursion (the separator match consumes a
whole whitespace run, so the recursion is not structural; the fuel, an upper
bound on the remaining length, keeps the definition kernel-reducible). -/
def splitBlankFuel : Nat → List Char → List (List Char)
  | 0, _ => [[]]
  | fuel + 1, cs =>
    match cs with
    | [] => [[]]
    | '\n' :: rest =>
      match sepSkip rest with
      | some rest' => [] :: splitBlankFuel fuel rest'
      | none =>
        match splitBlankFuel fuel rest with
        | [] => [['\n']]
        | l :: ls => ('\n' :: l) :: ls
    | c :: rest =>
      match splitBlankFuel fuel rest with
      | [] => [[c]]
      | l :: ls => (c :: l) :: ls

/-- Model of `text.split(/\n\s*\n/)`. -/
def splitBlank (cs : List Char) : List (List Char) :=
  splitBlankFuel cs.length cs

/-- Model of `lines.join("\n")` at the character level. -/
def joinNl : List (List Char) → List Char
  | [] => []
  | [l] => l
  | l :: ls => l ++ '\n' :: joinNl ls

/-- Source `parseSrtBlocks` (a `continue` becomes `filterMap` dropping the
block). -/
def parseSrtBlocks (text : String) : List SrtBlock :=
  let rawBlocks := (splitBlank text.data).filter (fun b => !(trimList b).isEmpty)
  rawBlocks.filterMap fun block =>
    let lines := (splitLinesL block).filter (fun l => !(trimList l).isEmpty)
    if lines.length < 3 then none
    else
      match jsParseInt (String.mk (lines.getD 0 [])) with
      | none => none
      | some index =>
        match searchRange (lines.getD 1 []) with
        | none => none
        | some caps =>
          some { index
                 startMs := parseTimestamp caps.1
                 endMs := parseTimestamp caps.2
                 text := jsTrim (String.mk (joinNl (lines.drop 2))) }

def parseSrt (text : String) (title : Option String) : NormalizedConversation :=
  let blocks := parseSrtBlocks text
  { title := (truthy title).getD "Subtitle Transcript"
    source := "srt"
    turns :=
      mapWithIndex (fun idx block =>
        let sp := extractSpeaker block.text
        { speaker := sp.1
          text := sp.2
          startMs := some block.startMs
          endMs := some block.endMs
          turnIndex := idx
          metadata := [("srtIndex", toString block.index)] }) 0 blocks
    metadata := [] }

/-- Source `isSrtText`. -/
def isSrtText (text : String) : Bool :=
  let lines := (splitLinesL text.data).filter (fun l => !(trimList l).isEmpty)
  if lines.length < 3 then false
  else
    let t := trimList (lines.getD 0 [])
    (!t.isEmpty && t.all Char.isDigit) && (searchRange (lines.getD 1 [])).isSome

end Srt

/-! ## Format detection and orchestration (`ingest/index.ts`) -/

/-- Source `detectFormat`: structured probes first, then the text probes (SRT
before WhatsApp). -/
def detectFormat (data : Json) : InputFormat :=
  if JsonTranscript.isJsonTranscript data then .jsonTranscript
  else if ChatLog.isChatLog data then .chatLog
  else
    match data with
    | .str s =>
      if Srt.isSrtText s then .srt
      else if WhatsApp.isWhatsAppText s then .whatsapp
      else .unknown
    | _ => .unknown

/-- Source `parseInput`: explicit format override (detection otherwise), then
per-format shape re-validation before the parser is invoked.  The
`try`/`catch` around the switch is not modelled: the embedded parsers are
total. -/
def parseInput (host : JsHost) (data : Json) (formatOpt : Option InputFormat)
    (titleOpt : Option String) : ParseResult :=
  let format := match formatOpt with
    | some f => f
    | none => detectFormat data
  match format with
  | .jsonTranscript =>
    if JsonTranscript.isJsonTranscript data then
      { success := true
        data := some (JsonTranscript.parseJsonTranscript host (JsonTranscript.decodeInput data) titleOpt)
        error := none
        format := some .jsonTranscript }
    else
      { success := false, data := none
        error := some "Data does not match json-transcript format"
        format := some .jsonTranscript }
  | .chatLog =>
    if ChatLog.isChatLog data then
      { success := true
        data := some (ChatLog.parseChatLog host (ChatLog.decodeInput data) titleOpt)
        error := none
        format := some .chatLog }
    else
      { success := false, data := none
        error := some "Data does not match chat-log format"
        format := some .chatLog }
  | .whatsapp =>
    match data with
    | .str s =>
      { success := true, data := some (WhatsApp.parseWhatsApp host s titleOpt)
        error := none, format := some .whatsapp }
    | _ =>
      { success := false, data := none
        error := some "WhatsApp format requires plain text input"
        format := some .whatsapp }
  | .srt =>
    match data with
    | .str s =>
      { success := true, data := some (Srt.parseSrt s titleOpt)
        error := none, format := some .srt }
    | _ =>
      { success := false, data := none
        error := some "SRT format requires plain text input"
        format := some .srt }
  | .unknown =>
    { success := false, data := none
      error := some "Unknown format. Supported: json-transcript, chat-log, whatsapp, srt"
      format := some .unknown }

/-! ## Generic lemmas about the indexed map -/

theorem mapWithIndex_length (f : Nat → α → β) (n : Nat) (l : List α) :
    (mapWithIndex f n l).length = l.length := by
  induction l generalizing n with
  | nil => rfl
  | cons a as ih => simp [mapWithIndex, ih]

theorem mapWithIndex_getElem? (f : Nat → α → β) (n k : Nat) (l : List α) :
    (mapWithIndex f n l)[k]? = (l[k]?).map (f (n + k)) := by
  induction l generalizing n k with
  | nil => simp [mapWithIndex]
  | cons a as ih =>
    cases k with
    | zero => simp [mapWithIndex]
    | succ k =>
      simp only [mapWithIndex, List.getElem?_cons_succ, ih (n + 1) k]
      have : n + 1 + k = n + (k + 1) := by omega
      rw [this]

theorem mem_mapWithIndex {b : β} {f : Nat → α → β} {n : Nat} {l : List α}
    (hb : b ∈ mapWithIndex f n l) : ∃ i a, a ∈ l ∧ b = f i a := by
  induction l generalizing n with
  | nil => simp [mapWithIndex] at hb
  | cons a as ih =>
    simp only [mapWithIndex, List.mem_cons] at hb
    rcases hb with hb | hb
    · exact ⟨n, a, List.mem_cons_self a as, hb⟩
    · obtain ⟨i, a', ha', hb⟩ := ih hb
      exact ⟨i, a', List.mem_cons_of_mem a ha', hb⟩

theorem mapWithIndex_pairwise {R : α → α → Prop} {S : β → β → Prop}
    {f : Nat → α → β} {l : List α}
    (hRS : ∀ i j a b, R a b → S (f i a) (f j b)) (n : Nat)
    (hl : l.Pairwise R) : (mapWithIndex f n l).Pairwise S := by
  induction l generalizing n with
  | nil => exact List.Pairwise.nil
  | cons a as ih =>
    rcases List.pairwise_cons.mp hl with ⟨ha, has⟩
    refine List.pairwise_cons.mpr ⟨?_, ih (n + 1) has⟩
    intro b hb
    obtain ⟨i, a', ha', hb⟩ := mem_mapWithIndex hb
    exact hb ▸ hRS n i a a' (ha a' ha')

/-! ## Minimum of a list (`Math.min(...)`) -/

theorem foldl_min_le_init (xs : List Int) (a : Int) : xs.foldl min a ≤ a := by
  induction xs generalizing a with
  | nil => exact le_refl a
  | cons x xs ih => exact le_trans (ih (min a x)) (min_le_left a x)

theorem foldl_min_le_mem (xs : List Int) (a v : Int) (hv : v ∈ xs) :
    xs.foldl min a ≤ v := by
  induction xs generalizing a with
  | nil => cases hv
  | cons x xs ih =>
    rcases List.mem_cons.mp hv with rfl | hv'
    · exact le_trans (foldl_min_le_init xs (min a v)) (min_le_right a v)
    · exact ih (min a x) hv'

theorem jsMinList_le {l : List Int} {v : Int} (hv : v ∈ l) : jsMinList l ≤ v := by
  cases l with
  | nil => cases hv
  | cons x xs =>
    rcases List.mem_cons.mp hv with rfl | hv'
    · exact foldl_min_le_init xs v
    · exact foldl_min_le_mem xs x v hv'

/-! ## Turn-index contiguity -/

def defaultTurn : NormalizedTurn :=
  { speaker := "", text := "", startMs := none, endMs := none, turnIndex := 0, metadata := [] }

/-- The C1 invariant: `turns[i].turnIndex == i` for every in-range `i`. -/
def turnsContiguous (l : List NormalizedTurn) : Prop :=
  ∀ k : Nat, k < l.length → (l.getD k defaultTurn).turnIndex = k

theorem mapWithIndex_contiguous (g : Nat → α → NormalizedTurn)
    (hg : ∀ i a, (g i a).turnIndex = i) (l : List α) :
    turnsContiguous (mapWithIndex g 0 l) := by
  intro k hk
  rw [mapWithIndex_length] at hk
  rw [List.getD_eq_getElem?_getD, mapWithIndex_getElem?,
    List.getElem?_eq_getElem hk]
  simp [hg]

theorem turnsContiguous_append {l : List NormalizedTurn} {t : NormalizedTurn}
    (hl : turnsContiguous l) (ht : t.turnIndex = l.length) :
    turnsContiguous (l ++ [t]) := by
  intro k hk
  rw [List.length_append, List.length_singleton] at hk
  rw [List.getD_eq_getElem?_getD]
  rcases Nat.lt_or_ge k l.length with h | h
  · rw [List.getElem?_append_left h, ← List.getD_eq_getElem?_getD]
    exact hl k h
  · have hk' : k = l.length := by omega
    subst hk'
    rw [List.getElem?_append_right h]
    simp [ht]

theorem waLoop_contiguous (host : JsHost) (lines : List (List Char))
    (cur : Option WhatsApp.ParsedLine) (curText : String)
    (turns : List NormalizedTurn) (hturns : turnsContiguous turns) :
    turnsContiguous (WhatsApp.waLoop host lines cur curText turns) := by
  induction lines generalizing cur curText turns with
  | nil =>
    cases cur with
    | none => exact hturns
    | some c =>
      exact turnsContiguous_append hturns rfl
  | cons line rest ih =>
    cases hp : WhatsApp.parseLine line with
    | some parsed =>
      cases cur with
      | some c =>
        simp only [WhatsApp.waLoop, hp]
        exact ih (some parsed) parsed.text _ (turnsContiguous_append hturns rfl)
      | none =>
        simp only [WhatsApp.waLoop, hp]
        exact ih (some parsed) parsed.text turns hturns
    | none =>
      cases cur with
      | some c =>
        simp only [WhatsApp.waLoop, hp]
        exact ih (some c) _ turns hturns
      | none =>
        simp only [WhatsApp.waLoop, hp]
        exact ih none curText turns hturns

theorem rebase_contiguous {l : List NormalizedTurn} (hl : turnsContiguous l) :
    turnsContiguous (WhatsApp.rebase l) := by
  cases l with
  | nil => exact hl
  | cons t0 rest =>
    cases h : t0.startMs with
    | none => simpa [WhatsApp.rebase, h] using hl
    | some base =>
      intro k hk
      simp only [WhatsApp.rebase, h] at hk ⊢
      rw [List.length_map] at hk
      rw [List.getD_eq_getElem?_getD, List.getElem?_map,
        List.getElem?_eq_getElem hk]
      have := hl k hk
      rw [List.getD_eq_getElem?_getD, List.getElem?_eq_getElem hk] at this
      simpa using this

/-- C1: for every input on which a parser succeeds (any of the four formats),
the emitted turns satisfy `turns[i].turnIndex == i` for every index `i`:
zero-based, contiguous, assigned in final emission order. -/
theorem c1_turn_index_contiguous (host : JsHost) (jt : JsonTranscriptInput)
    (cl : ChatLogInput) (wa srtText : String) (title : Option String) :
    turnsContiguous (JsonTranscript.parseJsonTranscript host jt title).turns ∧
    turnsContiguous (ChatLog.parseChatLog host cl title).turns ∧
    turnsContiguous (WhatsApp.parseWhatsApp host wa title).turns ∧
    turnsContiguous (Srt.parseSrt srtText title).turns := by
  refine ⟨?_, ?_, ?_, ?_⟩
  · exact mapWithIndex_contiguous _ (fun i a => rfl) jt.entries
  · exact mapWithIndex_contiguous _ (fun i a => rfl) _
  · exact rebase_contiguous (waLoop_contiguous host _ none "" [] (fun k hk => by cases hk))
  · exact mapWithIndex_contiguous _ (fun i a => rfl) _

/-! ## Concrete hosts and example inputs for witnesses -/

/-- A host on which every `new Date(string)` parse is an Invalid Date. -/
def hostNone : JsHost := ⟨fun _ => none⟩

def defaultConv : NormalizedConversation :=
  { title := "", source := "", turns := [], metadata := [] }

def mkMsg (user ts text : Option String) : ChatLogMessage :=
  { user := user, username := none, author := none, sender := none,
    timestamp := none, ts := ts, date := none, time := none,
    text := text, message := none, content := none }

def clExample : ChatLogInput :=
  { title := none, channel := none,
    messages := [mkMsg (some "Alice") (some "1000") (some "hi")] }

def jtExample : JsonTranscriptInput :=
  { title := none,
    entries := [{ speaker := some "Alice", timestamp := some "00:00:05",
                  start := none, endVal := none, text := "Hello" }] }

def waExample : String := "1/29/24, 2:30 PM - Alice: Hello\nworld"

def srtExample : String := "1\n00:00:05,000 --> 00:00:08,000\nAlice: Hello everyone"

/-- C1 witness: the contiguity theorem applied to concrete inputs of all four
parsers. -/
theorem c1_turn_index_contiguous_witness :
    (0 < (JsonTranscript.parseJsonTranscript hostNone jtExample none).turns.length ∧
      ((JsonTranscript.parseJsonTranscript hostNone jtExample none).turns.getD 0
        defaultTurn).turnIndex = 0) ∧
    (0 < (ChatLog.parseChatLog hostNone clExample none).turns.length ∧
      ((ChatLog.parseChatLog hostNone clExample none).turns.getD 0 defaultTurn).turnIndex = 0) ∧
    (0 < (WhatsApp.parseWhatsApp hostNone waExample none).turns.length ∧
      ((WhatsApp.parseWhatsApp hostNone waExample none).turns.getD 0 defaultTurn).turnIndex = 0) ∧
    (0 < (Srt.parseSrt srtExample none).turns.length ∧
      ((Srt.parseSrt srtExample none).turns.getD 0 defaultTurn).turnIndex = 0) :=
  ⟨⟨by decide,
      (c1_turn_index_contiguous hostNone jtExample clExample waExample srtExample none).1
        0 (by decide)⟩,
    ⟨by decide,
      (c1_turn_index_contiguous hostNone jtExample clExample waExample srtExample none).2.1
        0 (by decide)⟩,
    ⟨by decide,
      (c1_turn_index_contiguous hostNone jtExample clExample waExample srtExample none).2.2.1
        0 (by decide)⟩,
    ⟨by decide,
      (c1_turn_index_contiguous hostNone jtExample clExample waExample srtExample none).2.2.2
        0 (by decide)⟩⟩

def jtEmptyTextRaw : Json :=
  Json.obj [("entries", Json.arr [Json.obj [("speaker", Json.str "Alice"),
    ("text", Json.str "")]])]

/-! ## C2: empty-text turns

Trim/whitespace lemmas: `trimList` keeps every non-whitespace character, an
all-whitespace list trims to nil, and every non-empty suffix of a trimmed
list contains a non-whitespace character.  They establish that the SRT
parser, whose block bodies consist of non-blank lines and whose speaker
patterns capture trailing segments of the trimmed body, never emits a turn
with empty post-trim text. -/
theorem mem_dropWhile_not_ws {c : Char} {l : List Char} (hc : c ∈ l)
    (hw : jsWs c = false) : c ∈ l.dropWhile jsWs := by
  induction l with
  | nil => cases hc
  | cons a l ih =>
    rw [List.dropWhile_cons]
    rcases List.mem_cons.mp hc with rfl | hc'
    · rw [hw]
      simp
    · by_cases ha : jsWs a = true
      · rw [if_pos ha]
        exact ih hc'
      · rw [if_neg ha]
        exact List.mem_cons_of_mem a hc'

theorem mem_trimList {c : Char} {cs : List Char} (hc : c ∈ cs) (hw : jsWs c = false) :
    c ∈ trimList cs := by
  unfold trimList
  exact List.mem_reverse.mpr
    (mem_dropWhile_not_ws (List.mem_reverse.mpr (mem_dropWhile_not_ws hc hw)) hw)

theorem dropWhile_ws_eq_nil {l : List Char} (h : ∀ c ∈ l, jsWs c = true) :
    l.dropWhile jsWs = [] := by
  induction l with
  | nil => rfl
  | cons a l ih =>
    rw [List.dropWhile_cons, if_pos (h a (List.mem_cons_self a l))]
    exact ih fun c hc => h c (List.mem_cons_of_mem a hc)

theorem trimList_eq_nil_of_ws {cs : List Char} (h : ∀ c ∈ cs, jsWs c = true) :
    trimList cs = [] := by
  unfold trimList
  rw [dropWhile_ws_eq_nil h]
  rfl

theorem dropWhile_eq_cons_not_ws : ∀ {l : List Char} {c : Char} {r : List Char},
    l.dropWhile jsWs = c :: r → jsWs c = false := by
  intro l
  induction l with
  | nil => intro c r h; cases h
  | cons a l ih =>
    intro c r h
    rw [List.dropWhile_cons] at h
    by_cases ha : jsWs a = true
    · rw [if_pos ha] at h
      exact ih h
    · rw [if_neg ha] at h
      cases h
      simpa using ha

theorem trimList_split_has_not_ws {cs pre post : List Char}
    (hsplit : trimList cs = pre ++ post) (hpost : post ≠ []) :
    ∃ c ∈ post, jsWs c = false := by
  obtain ⟨c, tl, hcr⟩ : ∃ c tl, post.reverse = c :: tl := by
    cases hpr : post.reverse with
    | nil => exact absurd (by simpa using congrArg List.reverse hpr) hpost
    | cons c tl => exact ⟨c, tl, rfl⟩
  have hB : ((cs.dropWhile jsWs).reverse).dropWhile jsWs = c :: (tl ++ pre.reverse) := by
    have h1 := congrArg List.reverse hsplit
    unfold trimList at h1
    rw [List.reverse_reverse, List.reverse_append, hcr] at h1
    simpa using h1
  refine ⟨c, ?_, dropWhile_eq_cons_not_ws hB⟩
  have : c ∈ post.reverse := by rw [hcr]; exact List.mem_cons_self c tl
  exact List.mem_reverse.mp this

theorem mem_joinNl {c : Char} : ∀ {ls : List (List Char)} {l : List Char},
    l ∈ ls → c ∈ l → c ∈ Srt.joinNl ls := by
  intro ls
  induction ls with
  | nil => intro l h _; cases h
  | cons x xs ih =>
    intro l hl hc
    cases xs with
    | nil =>
      rcases List.mem_cons.mp hl with rfl | h
      · simpa [Srt.joinNl] using hc
      · cases h
    | cons y ys =>
      rcases List.mem_cons.mp hl with rfl | h
      · simp only [Srt.joinNl]
        exact List.mem_append_left _ hc
      · simp only [Srt.joinNl]
        exact List.mem_append_right _ (List.mem_cons_of_mem _ (ih h hc))

theorem srtColonPat_post {text sp tx : String}
    (h : Srt.srtColonPat text = some (sp, tx)) :
    ∃ pre post : List Char, text.data = pre ++ post ∧ post ≠ [] ∧
      tx = String.mk (trimList post) := by
  unfold Srt.srtColonPat at h
  split at h
  next c rest heq =>
    split at h
    · split at h
      next run post heq2 =>
        split at h
        next hcond =>
          simp only [Option.some.injEq, Prod.mk.injEq] at h
          obtain ⟨hsp2, htx2⟩ := h
          have hpair : (rest.takeWhile Srt.nameAlnumWs, rest.dropWhile Srt.nameAlnumWs)
              = (run, ':' :: post) := by
            rw [← List.span_eq_take_drop]
            exact heq2
          obtain ⟨htw, hdw⟩ := Prod.mk.injEq .. |>.mp hpair
          refine ⟨c :: (run ++ [':']), post, ?_, ?_, htx2.symm⟩
          · rw [heq]
            have hr : rest = run ++ ':' :: post := by
              conv_lhs => rw [← List.takeWhile_append_dropWhile (p := Srt.nameAlnumWs) (l := rest)]
              rw [htw, hdw]
            rw [hr]
            simp
          · have := (Bool.and_eq_true _ _).mp hcond |>.2
            simp only [Bool.not_eq_true'] at this
            simpa using this
        next => exact Option.noConfusion h
      next => exact Option.noConfusion h
    · exact Option.noConfusion h
  next heq => exact Option.noConfusion h

theorem srtBracketPat_post {text sp tx : String}
    (h : Srt.srtBracketPat text = some (sp, tx)) :
    ∃ pre post : List Char, text.data = pre ++ post ∧ post ≠ [] ∧
      tx = String.mk (trimList post) := by
  unfold Srt.srtBracketPat at h
  split at h
  next rest heq =>
    split at h
    next nm post heq2 =>
      split at h
      next hcond =>
        simp only [Option.some.injEq, Prod.mk.injEq] at h
        obtain ⟨hsp2, htx2⟩ := h
        have hpair : (rest.takeWhile (fun ch => ch != ']'),
            rest.dropWhile (fun ch => ch != ']')) = (nm, ']' :: post) := by
          rw [← List.span_eq_take_drop]
          exact heq2
        obtain ⟨htw, hdw⟩ := Prod.mk.injEq .. |>.mp hpair
        refine ⟨'[' :: (nm ++ [']']), post, ?_, ?_, htx2.symm⟩
        · rw [heq]
          have hr : rest = nm ++ ']' :: post := by
            conv_lhs => rw [← List.takeWhile_append_dropWhile
              (p := fun ch => ch != ']') (l := rest)]
            rw [htw, hdw]
          rw [hr]
          simp
        · have := (Bool.and_eq_true _ _).mp hcond |>.2
          simp only [Bool.not_eq_true'] at this
          simpa using this
      next => exact Option.noConfusion h
    next => exact Option.noConfusion h
  next heq => exact Option.noConfusion h

theorem srtParenPat_post {text sp tx : String}
    (h : Srt.srtParenPat text = some (sp, tx)) :
    ∃ pre post : List Char, text.data = pre ++ post ∧ post ≠ [] ∧
      tx = String.mk (trimList post) := by
  unfold Srt.srtParenPat at h
  split at h
  next rest heq =>
    split at h
    next nm post heq2 =>
      split at h
      next hcond =>
        simp only [Option.some.injEq, Prod.mk.injEq] at h
        obtain ⟨hsp2, htx2⟩ := h
        have hpair : (rest.takeWhile (fun ch => ch != ')'),
            rest.dropWhile (fun ch => ch != ')')) = (nm, ')' :: post) := by
          rw [← List.span_eq_take_drop]
          exact heq2
        obtain ⟨htw, hdw⟩ := Prod.mk.injEq .. |>.mp hpair
        refine ⟨'(' :: (nm ++ [')']), post, ?_, ?_, htx2.symm⟩
        · rw [heq]
          have hr : rest = nm ++ ')' :: post := by
            conv_lhs => rw [← List.takeWhile_append_dropWhile
              (p := fun ch => ch != ')') (l := rest)]
            rw [htw, hdw]
          rw [hr]
          simp
        · have := (Bool.and_eq_true _ _).mp hcond |>.2
          simp only [Bool.not_eq_true'] at this
          simpa using this
      next => exact Option.noConfusion h
    next => exact Option.noConfusion h
  next heq => exact Option.noConfusion h

theorem extractSpeaker_text_ne {X : List Char} (hX : ∃ c ∈ X, jsWs c = false) :
    jsTrim (Srt.extractSpeaker (String.mk (trimList X))).2 ≠ "" := by
  obtain ⟨c0, hc0, hw0⟩ := hX
  have hpost : ∀ tx : String, (∃ pre post : List Char,
      (String.mk (trimList X)).data = pre ++ post ∧ post ≠ [] ∧
      tx = String.mk (trimList post)) → jsTrim tx ≠ "" := by
    rintro tx ⟨pre, post, hsplit, hpne, htx⟩
    have hsplit' : trimList X = pre ++ post := hsplit
    obtain ⟨c, hcp, hcw⟩ := trimList_split_has_not_ws hsplit' hpne
    have h2 : c ∈ trimList (trimList post) := mem_trimList (mem_trimList hcp hcw) hcw
    rw [htx]
    intro hcon
    have h3 : trimList (trimList post) = [] := congrArg String.data hcon
    exact absurd (h3 ▸ h2) (List.not_mem_nil c)
  rcases hcp : Srt.srtColonPat (String.mk (trimList X)) with _ | ⟨s1, t1⟩
  · rcases hbp : Srt.srtBracketPat (String.mk (trimList X)) with _ | ⟨s2, t2⟩
    · rcases hpp : Srt.srtParenPat (String.mk (trimList X)) with _ | ⟨s3, t3⟩
      · simp only [Srt.extractSpeaker, hcp, hbp, hpp]
        intro hcon
        have h3 : trimList (trimList X) = [] := congrArg String.data hcon
        exact absurd (h3 ▸ mem_trimList (mem_trimList hc0 hw0) hw0) (List.not_mem_nil c0)
      · simp only [Srt.extractSpeaker, hcp, hbp, hpp]
        exact hpost t3 (srtParenPat_post hpp)
    · simp only [Srt.extractSpeaker, hcp, hbp]
      exact hpost t2 (srtBracketPat_post hbp)
  · simp only [Srt.extractSpeaker, hcp]
    exact hpost t1 (srtColonPat_post hcp)

theorem parseSrtBlocks_text {text : String} {b : Srt.SrtBlock}
    (hb : b ∈ Srt.parseSrtBlocks text) :
    ∃ X : List Char, b.text = String.mk (trimList X) ∧ ∃ c ∈ X, jsWs c = false := by
  simp only [Srt.parseSrtBlocks] at hb
  obtain ⟨block, hblock, hf⟩ := List.mem_filterMap.mp hb
  split at hf
  · exact Option.noConfusion hf
  next hlen =>
    split at hf
    · exact Option.noConfusion hf
    next index heqi =>
      split at hf
      · exact Option.noConfusion hf
      next caps heqc =>
        simp only [Option.some.injEq] at hf
        subst hf
        refine ⟨Srt.joinNl (((splitLinesL block).filter
          (fun l => !(trimList l).isEmpty)).drop 2), rfl, ?_⟩
        cases hld : ((splitLinesL block).filter (fun l => !(trimList l).isEmpty)).drop 2 with
        | nil =>
          have := congrArg List.length hld
          rw [List.length_drop] at this
          simp only [List.length_nil] at this
          omega
        | cons l0 ls0 =>
          have hl0 : l0 ∈ ((splitLinesL block).filter
              (fun l => !(trimList l).isEmpty)).drop 2 := by
            rw [hld]
            exact List.mem_cons_self l0 ls0
          have hl0L : l0 ∈ (splitLinesL block).filter (fun l => !(trimList l).isEmpty) :=
            List.drop_subset _ _ hl0
          have hpredl0 := (List.mem_filter.mp hl0L).2
          have htl0 : trimList l0 ≠ [] := by simpa using hpredl0
          have hex : ∃ c ∈ l0, jsWs c = false := by
            by_contra hno
            push_neg at hno
            exact htl0 (trimList_eq_nil_of_ws (fun c hc => by simpa using hno c hc))
          obtain ⟨c, hcl0, hcw⟩ := hex
          exact ⟨c, mem_joinNl (List.mem_cons_self l0 ls0) hcl0, hcw⟩

theorem c2_chat_log_srt_nonempty_text (host : JsHost) (clInput : ChatLogInput)
    (srtText : String) (title : Option String) :
    (∀ t ∈ (ChatLog.parseChatLog host clInput title).turns, jsTrim t.text ≠ "") ∧
    (∀ t ∈ (Srt.parseSrt srtText title).turns, jsTrim t.text ≠ "") := by
  constructor
  · intro t ht
    simp only [ChatLog.parseChatLog] at ht
    obtain ⟨i, m, hm, rfl⟩ := mem_mapWithIndex ht
    have hk : ChatLog.keepMsg m = true := (List.mem_filter.mp hm).2
    simpa [ChatLog.keepMsg, bne_iff_ne] using hk
  · intro t ht
    simp only [Srt.parseSrt] at ht
    obtain ⟨i, b, hb, rfl⟩ := mem_mapWithIndex ht
    obtain ⟨X, hbt, hX⟩ := parseSrtBlocks_text hb
    show jsTrim (Srt.extractSpeaker b.text).2 ≠ ""
    rw [hbt]
    exact extractSpeaker_text_ne hX

/-- C2 witness: the amended theorem applied to a concrete chat-log turn and a
concrete SRT turn. -/
theorem c2_chat_log_srt_nonempty_text_witness :
    ((ChatLog.parseChatLog hostNone clExample none).turns.getD 0 defaultTurn ∈
        (ChatLog.parseChatLog hostNone clExample none).turns ∧
      jsTrim ((ChatLog.parseChatLog hostNone clExample none).turns.getD 0
        defaultTurn).text ≠ "") ∧
    ((Srt.parseSrt srtExample none).turns.getD 0 defaultTurn ∈
        (Srt.parseSrt srtExample none).turns ∧
      jsTrim ((Srt.parseSrt srtExample none).turns.getD 0 defaultTurn).text ≠ "") :=
  ⟨⟨by decide,
      (c2_chat_log_srt_nonempty_text hostNone clExample srtExample none).1 _ (by decide)⟩,
    ⟨by decide,
      (c2_chat_log_srt_nonempty_text hostNone clExample srtExample none).2 _ (by decide)⟩⟩

/-- A WhatsApp header line whose post-colon text is whitespace-only: the text
capture backtracks to a single space, which trims to the empty string. -/
def waEmptyText : String := "1/29/24, 2:30 PM - Alice:  "

/-- C2 counterexample: a json-transcript input with an empty-text entry and a
WhatsApp export whose single message text is whitespace-only both parse
successfully, and each emitted turn's text is empty after trimming — neither
parser drops such turns. -/
theorem c2_counterexample :
    (parseInput hostNone jtEmptyTextRaw none none).success = true ∧
    ((parseInput hostNone jtEmptyTextRaw none none).data.getD defaultConv).turns.map
      (fun t => jsTrim t.text) = [""] ∧
    (parseInput hostNone (Json.str waEmptyText) (some InputFormat.whatsapp) none).success
      = true ∧
    ((parseInput hostNone (Json.str waEmptyText) (some InputFormat.whatsapp)
      none).data.getD defaultConv).turns.map (fun t => jsTrim t.text) = [""] := by decide

/-- C10: an empty `entries` (resp. `messages`) array passes the shape
validator vacuously; detection classifies it and `parseInput` succeeds with an
empty turn sequence. -/
theorem c10_empty_arrays_accepted (host : JsHost) :
    detectFormat (Json.obj [("entries", Json.arr [])]) = InputFormat.jsonTranscript ∧
    detectFormat (Json.obj [("messages", Json.arr [])]) = InputFormat.chatLog ∧
    (parseInput host (Json.obj [("entries", Json.arr [])]) none none).success = true ∧
    ((parseInput host (Json.obj [("entries", Json.arr [])]) none none).data.getD
      defaultConv).turns = [] ∧
    (parseInput host (Json.obj [("messages", Json.arr [])]) none none).success = true ∧
    ((parseInput host (Json.obj [("messages", Json.arr [])]) none none).data.getD
      defaultConv).turns = [] :=
  ⟨rfl, rfl, rfl, rfl, rfl, rfl⟩

/-- C4: with an explicitly supplied format, `parseInput` still validates the
payload shape against that format first — a mismatch produces the typed
format-specific failure without running the parser, a match runs exactly the
selected parser. -/
theorem c4_explicit_format_revalidates (host : JsHost) (data : Json)
    (title : Option String) :
    (JsonTranscript.isJsonTranscript data = false →
      parseInput host data (some .jsonTranscript) title =
        { success := false, data := none,
          error := some "Data does not match json-transcript format",
          format := some .jsonTranscript }) ∧
    (JsonTranscript.isJsonTranscript data = true →
      parseInput host data (some .jsonTranscript) title =
        { success := true,
          data := some (JsonTranscript.parseJsonTranscript host
            (JsonTranscript.decodeInput data) title),
          error := none, format := some .jsonTranscript }) ∧
    (ChatLog.isChatLog data = false →
      parseInput host data (some .chatLog) title =
        { success := false, data := none,
          error := some "Data does not match chat-log format",
          format := some .chatLog }) ∧
    (ChatLog.isChatLog data = true →
      parseInput host data (some .chatLog) title =
        { success := true,
          data := some (ChatLog.parseChatLog host (ChatLog.decodeInput data) title),
          error := none, format := some .chatLog }) ∧
    ((∀ s, data ≠ Json.str s) →
      parseInput host data (some .whatsapp) title =
        { success := false, data := none,
          error := some "WhatsApp format requires plain text input",
          format := some .whatsapp }) ∧
    (∀ s, data = Json.str s →
      parseInput host data (some .whatsapp) title =
        { success := true, data := some (WhatsApp.parseWhatsApp host s title),
          error := none, format := some .whatsapp }) ∧
    ((∀ s, data ≠ Json.str s) →
      parseInput host data (some .srt) title =
        { success := false, data := none,
          error := some "SRT format requires plain text input",
          format := some .srt }) ∧
    (∀ s, data = Json.str s →
      parseInput host data (some .srt) title =
        { success := true, data := some (Srt.parseSrt s title), error := none,
          format := some .srt }) := by
  refine ⟨?_, ?_, ?_, ?_, ?_, ?_, ?_, ?_⟩
  · intro h; simp [parseInput, h]
  · intro h; simp [parseInput, h]
  · intro h; simp [parseInput, h]
  · intro h; simp [parseInput, h]
  · intro h; cases data <;> simp [parseInput] <;> exact absurd rfl (h _)
  · intro s h; subst h; simp [parseInput]
  · intro h; cases data <;> simp [parseInput] <;> exact absurd rfl (h _)
  · intro s h; subst h; simp [parseInput]

/-- C4 witness: a text payload with explicit `json-transcript` format and a
structured payload with explicit `whatsapp` format both fail with the
format-specific shape error. -/
theorem c4_explicit_format_revalidates_witness :
    JsonTranscript.isJsonTranscript (Json.str "hello") = false ∧
    parseInput hostNone (Json.str "hello") (some .jsonTranscript) none =
      { success := false, data := none,
        error := some "Data does not match json-transcript format",
        format := some .jsonTranscript } ∧
    parseInput hostNone (Json.num 5) (some .whatsapp) none =
      { success := false, data := none,
        error := some "WhatsApp format requires plain text input",
        format := some .whatsapp } :=
  ⟨rfl,
    (c4_explicit_format_revalidates hostNone (Json.str "hello") none).1 rfl,
    (c4_explicit_format_revalidates hostNone (Json.num 5) none).2.2.2.2.1
      (fun s h => Json.noConfusion h)⟩

/-! ## C8: WhatsApp detection threshold -/

def waOneLine : String := "1/29/24, 2:30 PM - Alice: Hello everyone"

def waTwoLines : String := "1/29/24, 2:30 PM - Alice: Hello\n1/29/24, 2:31 PM - Bob: Hi"

/-- C8 counterexample: a one-line text input all of whose sampled non-blank
lines match a WhatsApp pattern (fraction 1 ≥ 0.3) and which no earlier format
claims, yet detection yields `unknown`: the code additionally requires at
least two non-blank lines, a minimum the claim says is not imposed. -/
theorem c8_counterexample :
    ((WhatsApp.waLines waOneLine).filter (fun l => (WhatsApp.parseLine l).isSome)).length =
      (WhatsApp.waLines waOneLine).length ∧
    (WhatsApp.waLines waOneLine).length = 1 ∧
    JsonTranscript.isJsonTranscript (Json.str waOneLine) = false ∧
    ChatLog.isChatLog (Json.str waOneLine) = false ∧
    Srt.isSrtText waOneLine = false ∧
    detectFormat (Json.str waOneLine) = InputFormat.unknown := by decide

/-- C8 (amended): for a text input that no structured format claims and that
is not SRT, if at least 30% of the first up-to-10 non-blank lines match a
WhatsApp line pattern — and the input has at least 2 non-blank lines, a
minimum the code imposes beyond the spec — then detection returns
`whatsapp`. -/
theorem c8_whatsapp_detection (t : String)
    (h2 : 2 ≤ (WhatsApp.waLines t).length)
    (hsrt : Srt.isSrtText t = false)
    (hfrac : 3 * min (WhatsApp.waLines t).length 10 ≤
      10 * (((WhatsApp.waLines t).take (min (WhatsApp.waLines t).length 10)).filter
        (fun l => (WhatsApp.parseLine l).isSome)).length) :
    detectFormat (Json.str t) = InputFormat.whatsapp := by
  have hwa : WhatsApp.isWhatsAppText t = true := by
    simp only [WhatsApp.isWhatsAppText]
    rw [if_neg (by omega)]
    exact decide_eq_true hfrac
  simp [detectFormat, JsonTranscript.isJsonTranscript, ChatLog.isChatLog, hsrt, hwa]

/-- C8 witness: the amended detection theorem applied to a two-line WhatsApp
text. -/
theorem c8_whatsapp_detection_witness :
    2 ≤ (WhatsApp.waLines waTwoLines).length ∧
    Srt.isSrtText waTwoLines = false ∧
    detectFormat (Json.str waTwoLines) = InputFormat.whatsapp :=
  ⟨by decide, by decide,
    c8_whatsapp_detection waTwoLines (by decide) (by decide) (by decide)⟩

/-! ## C6: json-transcript timestamp semantics -/

/-- The spec's JSON-transcript scenario input. -/
def jtScenario : Json :=
  Json.obj [("entries", Json.arr [
    Json.obj [("speaker", Json.str "Alice"), ("timestamp", Json.str "00:00:05"),
      ("text", Json.str "Hello everyone")],
    Json.obj [("speaker", Json.str "Bob"), ("timestamp", Json.str "00:00:12"),
      ("text", Json.str "Hi Alice")]])]

/-- C6: per entry, in input order, `startMs` is the entry's `start` when
present, else the `timestamp` string resolved by trying ISO-8601 (the host
Date parse) first and then the colon-delimited `HH:MM:SS`/`MM:SS`/`SS` forms,
a non-numeric component yielding `undefined`; no rebasing is applied to the
emitted values, and on the spec's scenario (where the host does not
ISO-resolve the colon strings) the two turns carry 5000 and 12000. -/
theorem c6_json_transcript_start_ms (host : JsHost) (input : JsonTranscriptInput)
    (title : Option String) (k : Nat) (entry : JsonTranscriptEntry)
    (hk : input.entries[k]? = some entry) :
    (((JsonTranscript.parseJsonTranscript host input title).turns[k]?).map
      (fun t => t.startMs)) = some (JsonTranscript.entryStartMs host entry) ∧
    (∀ v, entry.start = some v → JsonTranscript.entryStartMs host entry = some v) ∧
    (∀ s v, entry.start = none → entry.timestamp = some s → s ≠ "" →
      host.dateParse s = some v →
      JsonTranscript.entryStartMs host entry = some v) ∧
    (∀ s hh mm ss, host.dateParse s = none → s ≠ "" →
      (splitOnP (fun c => c == ':') s.data).map (fun p => jsNumberInt (String.mk p)) =
        [some hh, some mm, some ss] →
      JsonTranscript.parseTimestampToMs host (some s) =
        some ((hh * 3600 + mm * 60 + ss) * 1000)) ∧
    (∀ s mm ss, host.dateParse s = none → s ≠ "" →
      (splitOnP (fun c => c == ':') s.data).map (fun p => jsNumberInt (String.mk p)) =
        [some mm, some ss] →
      JsonTranscript.parseTimestampToMs host (some s) = some ((mm * 60 + ss) * 1000)) ∧
    (∀ s ss, host.dateParse s = none → s ≠ "" →
      (splitOnP (fun c => c == ':') s.data).map (fun p => jsNumberInt (String.mk p)) =
        [some ss] →
      JsonTranscript.parseTimestampToMs host (some s) = some (ss * 1000)) ∧
    (∀ s, host.dateParse s = none → s ≠ "" →
      ((splitOnP (fun c => c == ':') s.data).map (fun p => jsNumberInt (String.mk p))).any
        (fun o => o.isNone) = true →
      JsonTranscript.parseTimestampToMs host (some s) = none) ∧
    (host.dateParse "00:00:05" = none → host.dateParse "00:00:12" = none →
      (parseInput host jtScenario none none).success = true ∧
      ((parseInput host jtScenario none none).data.getD defaultConv).turns.map
        (fun t => t.startMs) = [some 5000, some 12000] ∧
      ((parseInput host jtScenario none none).data.getD defaultConv).source =
        "json-transcript") := by
  refine ⟨?_, ?_, ?_, ?_, ?_, ?_, ?_, ?_⟩
  · simp only [JsonTranscript.parseJsonTranscript]
    rw [mapWithIndex_getElem?, hk]
    rfl
  · intro v hv
    simp [JsonTranscript.entryStartMs, hv]
  · intro s v h0 hts hne hdp
    simp [JsonTranscript.entryStartMs, h0, hts,
      JsonTranscript.parseTimestampToMs_dateParse_some hne hdp]
  · intro s hh mm ss hdp hne hparts
    rw [JsonTranscript.parseTimestampToMs_dateParse_none hne hdp]
    simp [JsonTranscript.colonTimestampToMs, hparts]
  · intro s mm ss hdp hne hparts
    rw [JsonTranscript.parseTimestampToMs_dateParse_none hne hdp]
    simp [JsonTranscript.colonTimestampToMs, hparts]
  · intro s ss hdp hne hparts
    rw [JsonTranscript.parseTimestampToMs_dateParse_none hne hdp]
    simp [JsonTranscript.colonTimestampToMs, hparts]
  · intro s hdp hne hany
    rw [JsonTranscript.parseTimestampToMs_dateParse_none hne hdp]
    simp [JsonTranscript.colonTimestampToMs, hany]
  · intro h05 h12
    refine ⟨rfl, ?_, rfl⟩
    have ht1 : JsonTranscript.parseTimestampToMs host (some "00:00:05") = some 5000 := by
      rw [JsonTranscript.parseTimestampToMs_dateParse_none (by decide) h05]
      decide
    have ht2 : JsonTranscript.parseTimestampToMs host (some "00:00:12") = some 12000 := by
      rw [JsonTranscript.parseTimestampToMs_dateParse_none (by decide) h12]
      decide
    show (JsonTranscript.parseJsonTranscript host (JsonTranscript.decodeInput jtScenario)
      none).turns.map (fun t => t.startMs) = [some 5000, some 12000]
    simp only [JsonTranscript.parseJsonTranscript, JsonTranscript.decodeInput]
    simp [mapWithIndex, JsonTranscript.entryStartMs, JsonTranscript.decodeEntry,
      jlookup, jstr?, jint?, ht1, ht2]

def c6entry : JsonTranscriptEntry :=
  { speaker := some "Alice", timestamp := some "00:00:05", start := none,
    endVal := none, text := "Hello everyone" }

/-- C6 witness: the timestamp-semantics theorem applied to the spec's
scenario on a host that ISO-resolves nothing. -/
theorem c6_json_transcript_start_ms_witness :
    (JsonTranscript.decodeInput jtScenario).entries[0]? = some c6entry ∧
    (((JsonTranscript.parseJsonTranscript hostNone (JsonTranscript.decodeInput jtScenario)
      none).turns[0]?).map (fun t => t.startMs)) =
      some (JsonTranscript.entryStartMs hostNone c6entry) ∧
    ((parseInput hostNone jtScenario none none).data.getD defaultConv).turns.map
      (fun t => t.startMs) = [some 5000, some 12000] :=
  ⟨by decide,
    (c6_json_transcript_start_ms hostNone (JsonTranscript.decodeInput jtScenario) none 0
      c6entry (by decide)).1,
    ((c6_json_transcript_start_ms hostNone (JsonTranscript.decodeInput jtScenario) none 0
      c6entry (by decide)).2.2.2.2.2.2.2 rfl rfl).2.1⟩

/-! ## C5: WhatsApp rebasing -/

/-- C5: when the first raw WhatsApp turn has a resolved absolute timestamp,
every turn's `startMs` is rebased relative to it (unresolved ones stay
`undefined`) and the first emitted turn's `startMs` becomes 0; when the first
turn's timestamp is unresolved (or there are no turns), no rebasing occurs. -/
theorem c5_whatsapp_rebasing (host : JsHost) (text : String) (title : Option String) :
    (∀ (t0 : NormalizedTurn) (base : Int),
      (WhatsApp.rawTurns host text).head? = some t0 → t0.startMs = some base →
      (∀ k : Nat, ((WhatsApp.parseWhatsApp host text title).turns[k]?) =
        ((WhatsApp.rawTurns host text)[k]?).map
          (fun t => { t with startMs := t.startMs.map (fun v => v - base) })) ∧
      ((WhatsApp.parseWhatsApp host text title).turns.head?).map (fun t => t.startMs) =
        some (some 0)) ∧
    (∀ t0 : NormalizedTurn,
      (WhatsApp.rawTurns host text).head? = some t0 → t0.startMs = none →
      (WhatsApp.parseWhatsApp host text title).turns = WhatsApp.rawTurns host text) ∧
    (WhatsApp.rawTurns host text = [] →
      (WhatsApp.parseWhatsApp host text title).turns = []) := by
  refine ⟨?_, ?_, ?_⟩
  · intro t0 base h0 hb
    cases hraw : WhatsApp.rawTurns host text with
    | nil => rw [hraw] at h0; cases h0
    | cons x rest =>
      rw [hraw] at h0
      simp only [List.head?_cons, Option.some.injEq] at h0
      subst h0
      have hturns : (WhatsApp.parseWhatsApp host text title).turns =
          (x :: rest).map
            (fun t => { t with startMs := t.startMs.map (fun v => v - base) }) := by
        show WhatsApp.rebase (WhatsApp.rawTurns host text) = _
        rw [hraw]
        simp only [WhatsApp.rebase, hb]
      constructor
      · intro k
        rw [hturns, List.getElem?_map]
      · rw [hturns]
        simp [hb]
  · intro t0 h0 hb
    cases hraw : WhatsApp.rawTurns host text with
    | nil => rw [hraw] at h0; cases h0
    | cons x rest =>
      rw [hraw] at h0
      simp only [List.head?_cons, Option.some.injEq] at h0
      subst h0
      show WhatsApp.rebase (WhatsApp.rawTurns host text) = _
      rw [hraw]
      simp only [WhatsApp.rebase, hb]
  · intro h
    show WhatsApp.rebase (WhatsApp.rawTurns host text) = []
    rw [h]
    rfl

/-- A host resolving exactly the two combined date-time strings the
two-line WhatsApp example produces. -/
def hostTbl : JsHost :=
  ⟨fun s =>
    if s = "1-29-24 2:30 PM" then some 1000000
    else if s = "1-29-24 2:31 PM" then some 1060000
    else none⟩

def c5turn : NormalizedTurn :=
  { speaker := "Alice", text := "Hello", startMs := some 1000000, endMs := none,
    turnIndex := 0,
    metadata := [("originalDate", "1/29/24"), ("originalTime", "2:30 PM")] }

/-- C5 witness: the rebasing theorem applied to a concrete two-message
WhatsApp export whose timestamps the host resolves. -/
theorem c5_whatsapp_rebasing_witness :
    (WhatsApp.rawTurns hostTbl waTwoLines).head? = some c5turn ∧
    c5turn.startMs = some 1000000 ∧
    ((WhatsApp.parseWhatsApp hostTbl waTwoLines none).turns[1]?) =
      ((WhatsApp.rawTurns hostTbl waTwoLines)[1]?).map
        (fun t => { t with startMs := t.startMs.map (fun v => v - 1000000) }) ∧
    ((WhatsApp.parseWhatsApp hostTbl waTwoLines none).turns.head?).map
      (fun t => t.startMs) = some (some 0) :=
  ⟨by decide, rfl,
    ((c5_whatsapp_rebasing hostTbl waTwoLines none).1 c5turn 1000000 (by decide) rfl).1 1,
    ((c5_whatsapp_rebasing hostTbl waTwoLines none).1 c5turn 1000000 (by decide) rfl).2⟩

/-! ## C7: WhatsApp continuation lines -/

theorem waLoop_append (host : JsHost) (lines : List (List Char))
    (cur : Option WhatsApp.ParsedLine) (curText : String)
    (turns : List NormalizedTurn) :
    ∃ suffix, WhatsApp.waLoop host lines cur curText turns = turns ++ suffix := by
  induction lines generalizing cur curText turns with
  | nil =>
    cases cur with
    | none => exact ⟨[], (List.append_nil turns).symm⟩
    | some c => exact ⟨_, rfl⟩
  | cons line rest ih =>
    cases hp : WhatsApp.parseLine line with
    | some parsed =>
      cases cur with
      | some c =>
        simp only [WhatsApp.waLoop, hp]
        obtain ⟨s, hs⟩ := ih (some parsed) parsed.text
          (turns ++ [WhatsApp.flushTurn host c curText turns.length])
        exact ⟨_, by rw [hs, List.append_assoc]⟩
      | none =>
        simp only [WhatsApp.waLoop, hp]
        exact ih _ _ _
    | none =>
      cases cur with
      | some c =>
        simp only [WhatsApp.waLoop, hp]
        exact ih _ _ _
      | none =>
        simp only [WhatsApp.waLoop, hp]
        exact ih _ _ _

theorem waLoop_contsStep (host : JsHost) (conts : List (List Char))
    (hc : ∀ l ∈ conts, WhatsApp.parseLine l = none) (rest : List (List Char))
    (c : WhatsApp.ParsedLine) (curText : String) (turns : List NormalizedTurn) :
    WhatsApp.waLoop host (conts ++ rest) (some c) curText turns =
      WhatsApp.waLoop host rest (some c)
        (conts.foldl (fun a l => a ++ "\n" ++ String.mk l) curText) turns := by
  induction conts generalizing curText with
  | nil => rfl
  | cons l ls ih =>
    have hl := hc l (List.mem_cons_self l ls)
    simp only [List.cons_append, WhatsApp.waLoop, hl, List.foldl_cons]
    exact ih (fun x hx => hc x (List.mem_cons_of_mem l hx)) _

theorem waLoop_skipPre (host : JsHost) (pre rest : List (List Char))
    (hpre : ∀ l ∈ pre, WhatsApp.parseLine l = none) (curText : String)
    (turns : List NormalizedTurn) :
    WhatsApp.waLoop host (pre ++ rest) none curText turns =
      WhatsApp.waLoop host rest none curText turns := by
  induction pre with
  | nil => rfl
  | cons l ls ih =>
    have hl := hpre l (List.mem_cons_self l ls)
    simp only [List.cons_append, WhatsApp.waLoop, hl]
    exact ih (fun x hx => hpre x (List.mem_cons_of_mem l hx))

theorem waLoop_split (host : JsHost) (pre ls : List (List Char))
    (cur : Option WhatsApp.ParsedLine) (ct : String) (turns : List NormalizedTurn) :
    ∃ cur' ct' turns',
      WhatsApp.waLoop host (pre ++ ls) cur ct turns =
        WhatsApp.waLoop host ls cur' ct' turns' := by
  induction pre generalizing cur ct turns with
  | nil => exact ⟨cur, ct, turns, rfl⟩
  | cons l pre ih =>
    rw [List.cons_append]
    cases hp : WhatsApp.parseLine l with
    | some parsed =>
      cases cur with
      | some c => simp only [WhatsApp.waLoop, hp]; exact ih _ _ _
      | none => simp only [WhatsApp.waLoop, hp]; exact ih _ _ _
    | none =>
      cases cur with
      | some c => simp only [WhatsApp.waLoop, hp]; exact ih _ _ _
      | none => simp only [WhatsApp.waLoop, hp]; exact ih _ _ _

theorem waLoop_header (host : JsHost) (hline : List Char) (p : WhatsApp.ParsedLine)
    (conts rest : List (List Char)) (cur : Option WhatsApp.ParsedLine) (ct : String)
    (turns : List NormalizedTurn)
    (hh : WhatsApp.parseLine hline = some p)
    (hconts : ∀ l ∈ conts, WhatsApp.parseLine l = none)
    (hrest : rest = [] ∨ ∃ h2 r2 p2, rest = h2 :: r2 ∧ WhatsApp.parseLine h2 = some p2) :
    ∃ before suffix,
      WhatsApp.waLoop host (hline :: (conts ++ rest)) cur ct turns =
        before ++ WhatsApp.flushTurn host p
          (conts.foldl (fun a l => a ++ "\n" ++ String.mk l) p.text) before.length :: suffix ∧
      (rest = [] → suffix = []) ∧
      (cur = none → before = turns) := by
  have hstep : ∃ turns1,
      WhatsApp.waLoop host (hline :: (conts ++ rest)) cur ct turns =
        WhatsApp.waLoop host (conts ++ rest) (some p) p.text turns1 ∧
      (cur = none → turns1 = turns) := by
    cases cur with
    | some c =>
      exact ⟨turns ++ [WhatsApp.flushTurn host c ct turns.length],
        by simp only [WhatsApp.waLoop, hh], fun h => Option.noConfusion h⟩
    | none => exact ⟨turns, by simp only [WhatsApp.waLoop, hh], fun _ => rfl⟩
  obtain ⟨turns1, hstep1, hcur1⟩ := hstep
  rw [hstep1, waLoop_contsStep host conts hconts rest p p.text turns1]
  rcases hrest with rfl | ⟨h2, r2, p2, rfl, hp2⟩
  · exact ⟨turns1, [], rfl, fun _ => rfl, hcur1⟩
  · simp only [WhatsApp.waLoop, hp2]
    obtain ⟨suffix, hs⟩ := waLoop_append host r2 (some p2) p2.text
      (turns1 ++ [WhatsApp.flushTurn host p
        (conts.foldl (fun a l => a ++ "\n" ++ String.mk l) p.text) turns1.length])
    refine ⟨turns1, suffix, ?_, fun h => List.noConfusion h, hcur1⟩
    rw [hs, List.append_assoc]
    rfl

theorem rebase_segment (l before : List NormalizedTurn) (x : NormalizedTurn)
    (suffix : List NormalizedTurn) (hl : l = before ++ x :: suffix) :
    ∃ before' x' suffix', WhatsApp.rebase l = before' ++ x' :: suffix' ∧
      x'.speaker = x.speaker ∧ x'.text = x.text ∧
      before'.length = before.length ∧ suffix'.length = suffix.length := by
  cases l with
  | nil => simp at hl
  | cons t0 rest0 =>
    cases hb : t0.startMs with
    | none =>
      refine ⟨before, x, suffix, ?_, rfl, rfl, rfl, rfl⟩
      simp only [WhatsApp.rebase, hb]
      exact hl
    | some base =>
      refine ⟨before.map (fun t => { t with startMs := t.startMs.map (fun v => v - base) }),
        { x with startMs := x.startMs.map (fun v => v - base) },
        suffix.map (fun t => { t with startMs := t.startMs.map (fun v => v - base) }),
        ?_, rfl, rfl, by simp, by simp⟩
      simp only [WhatsApp.rebase, hb]
      rw [hl, List.map_append, List.map_cons]

/-- C7: any matched header line (wherever it sits in the input) followed by N
non-matching lines, up to the next matching line or the end of input, becomes
exactly one emitted turn whose text joins the header's text with those lines
by line breaks, in order; when the header is the first match, non-matching
lines before it are discarded and its turn is the conversation's first. -/
theorem c7_whatsapp_continuation (host : JsHost) (text : String) (title : Option String)
    (pre conts rest : List (List Char)) (hline : List Char) (p : WhatsApp.ParsedLine)
    (hsplit : WhatsApp.waLines text = pre ++ hline :: (conts ++ rest))
    (hh : WhatsApp.parseLine hline = some p)
    (hconts : ∀ l ∈ conts, WhatsApp.parseLine l = none)
    (hrest : rest = [] ∨ ∃ h2 r2 p2, rest = h2 :: r2 ∧ WhatsApp.parseLine h2 = some p2) :
    ∃ (t : NormalizedTurn) (before after : List NormalizedTurn),
      (WhatsApp.parseWhatsApp host text title).turns = before ++ t :: after ∧
      t.speaker = p.speaker ∧
      t.text = jsTrim (conts.foldl (fun a l => a ++ "\n" ++ String.mk l) p.text) ∧
      (rest = [] → after = []) ∧
      ((∀ l ∈ pre, WhatsApp.parseLine l = none) → before = []) := by
  by_cases hpre : ∀ l ∈ pre, WhatsApp.parseLine l = none
  · have hraw : WhatsApp.rawTurns host text =
        WhatsApp.waLoop host (hline :: (conts ++ rest)) none "" [] := by
      unfold WhatsApp.rawTurns
      rw [hsplit, waLoop_skipPre host pre _ hpre]
    obtain ⟨before, suffix, hseg, hsuf, hcur⟩ :=
      waLoop_header host hline p conts rest none "" [] hh hconts hrest
    have hb0 : before = [] := hcur rfl
    rw [hb0] at hseg
    obtain ⟨before', x', suffix', hreb, hsp, htx, hlb, hls⟩ :=
      rebase_segment (WhatsApp.rawTurns host text) _ _ _ (hraw.trans hseg)
    refine ⟨x', before', suffix', ?_, hsp.trans rfl, htx.trans rfl, ?_, ?_⟩
    · exact hreb
    · intro hre
      exact List.eq_nil_of_length_eq_zero (by rw [hls, hsuf hre]; rfl)
    · intro _
      exact List.eq_nil_of_length_eq_zero (by rw [hlb]; rfl)
  · obtain ⟨cur', ct', turns', hsp'⟩ :=
      waLoop_split host pre (hline :: (conts ++ rest)) none "" []
    have hraw : WhatsApp.rawTurns host text =
        WhatsApp.waLoop host (hline :: (conts ++ rest)) cur' ct' turns' := by
      unfold WhatsApp.rawTurns
      rw [hsplit]
      exact hsp'
    obtain ⟨before, suffix, hseg, hsuf, _⟩ :=
      waLoop_header host hline p conts rest cur' ct' turns' hh hconts hrest
    obtain ⟨before', x', suffix', hreb, hsp, htx, hlb, hls⟩ :=
      rebase_segment (WhatsApp.rawTurns host text) _ _ _ (hraw.trans hseg)
    refine ⟨x', before', suffix', ?_, hsp.trans rfl, htx.trans rfl, ?_, ?_⟩
    · exact hreb
    · intro hre
      exact List.eq_nil_of_length_eq_zero (by rw [hls, hsuf hre]; rfl)
    · intro hp
      exact absurd hp hpre

def waTwoHeaders : String :=
  "noise line\n1/29/24, 2:30 PM - Alice: A\n1/29/24, 2:31 PM - Bob: Hi\ncont one\ncont two"

def c7p : WhatsApp.ParsedLine :=
  { date := "1/29/24", time := "2:31 PM", speaker := "Bob", text := "Hi" }

/-- C7 witness: the continuation theorem applied to the second header of a
two-header export (the lines before it include an earlier matched header),
followed by two non-matching lines at end of input. -/
theorem c7_whatsapp_continuation_witness :
    WhatsApp.parseLine "1/29/24, 2:31 PM - Bob: Hi".data = some c7p ∧
    (∀ l ∈ ["cont one".data, "cont two".data], WhatsApp.parseLine l = none) ∧
    (∃ (t : NormalizedTurn) (before after : List NormalizedTurn),
      (WhatsApp.parseWhatsApp hostNone waTwoHeaders none).turns = before ++ t :: after ∧
      t.speaker = c7p.speaker ∧
      t.text = jsTrim (["cont one".data, "cont two".data].foldl
        (fun a l => a ++ "\n" ++ String.mk l) c7p.text) ∧
      after = []) := by
  refine ⟨by decide, by decide, ?_⟩
  obtain ⟨t, before, after, h1, h2, h3, h4, _⟩ :=
    c7_whatsapp_continuation hostNone waTwoHeaders none
      ["noise line".data, "1/29/24, 2:30 PM - Alice: A".data]
      ["cont one".data, "cont two".data] [] "1/29/24, 2:31 PM - Bob: Hi".data c7p
      (by decide) (by decide) (by decide) (Or.inl rfl)
  exact ⟨t, before, after, h1, h2, h3, h4 rfl⟩

/-! ## Chat-log sort lemmas (for C3/C9) -/

namespace ChatLog

theorem insertSorted_perm (host : JsHost) (x : ChatLogMessage)
    (l : List ChatLogMessage) : (insertSorted host x l).Perm (x :: l) := by
  induction l with
  | nil => exact List.Perm.refl _
  | cons y ys ih =>
    simp only [insertSorted]
    by_cases h : cmpLt host y x = true
    · rw [if_pos h]
      exact (ih.cons y).trans (List.Perm.swap x y ys)
    · rw [if_neg h]

theorem sortMessages_perm (host : JsHost) (l : List ChatLogMessage) :
    (sortMessages host l).Perm l := by
  induction l with
  | nil => exact List.Perm.refl _
  | cons x xs ih => exact (insertSorted_perm host x _).trans (ih.cons x)

/-- The message-level non-decreasing relation on resolved timestamps. -/
def tsLe (host : JsHost) (a b : ChatLogMessage) : Prop :=
  ∀ x y : Int, parseTimestampToMs host a = some x →
    parseTimestampToMs host b = some y → x ≤ y

theorem pairwise_insertSorted (host : JsHost) {x : ChatLogMessage}
    {l : List ChatLogMessage} (hx : (parseTimestampToMs host x).isSome)
    (hl : ∀ m ∈ l, (parseTimestampToMs host m).isSome)
    (hp : l.Pairwise (tsLe host)) : (insertSorted host x l).Pairwise (tsLe host) := by
  induction l with
  | nil => simp [insertSorted, tsLe]
  | cons y ys ih =>
    obtain ⟨hpy, hpys⟩ := List.pairwise_cons.mp hp
    have hy := hl y (List.mem_cons_self y ys)
    have hys : ∀ m ∈ ys, (parseTimestampToMs host m).isSome :=
      fun m hm => hl m (List.mem_cons_of_mem y hm)
    simp only [insertSorted]
    by_cases h : cmpLt host y x = true
    · rw [if_pos h]
      refine List.pairwise_cons.mpr ⟨?_, ih hys hpys⟩
      intro z hz
      have hz' : z = x ∨ z ∈ ys := List.mem_cons.mp ((insertSorted_perm host x ys).subset hz)
      rcases hz' with rfl | hz'
      · intro a b ha hb
        simp only [cmpLt, ha, hb, decide_eq_true_eq] at h
        exact le_of_lt h
      · exact hpy z hz'
    · rw [if_neg h]
      have hle : ∀ a b : Int, parseTimestampToMs host x = some a →
          parseTimestampToMs host y = some b → a ≤ b := by
        intro a b ha hb
        simp only [cmpLt, hb, ha, decide_eq_true_eq] at h
        exact le_of_not_lt h
      refine List.pairwise_cons.mpr ⟨?_, hp⟩
      intro z hz
      rcases List.mem_cons.mp hz with rfl | hz'
      · exact hle
      · intro a b ha hb
        obtain ⟨ty, hty⟩ := Option.isSome_iff_exists.mp hy
        exact le_trans (hle a ty ha hty) (hpy z hz' ty b hty hb)

theorem pairwise_sortMessages (host : JsHost) (l : List ChatLogMessage)
    (hl : ∀ m ∈ l, (parseTimestampToMs host m).isSome) :
    (sortMessages host l).Pairwise (tsLe host) := by
  induction l with
  | nil => exact List.Pairwise.nil
  | cons x xs ih =>
    simp only [sortMessages]
    refine pairwise_insertSorted host (hl x (List.mem_cons_self x xs)) ?_
      (ih fun m hm => hl m (List.mem_cons_of_mem x hm))
    intro m hm
    exact hl m (List.mem_cons_of_mem x ((sortMessages_perm host xs).subset hm))

theorem baseTimestamp_le (host : JsHost) (sorted : List ChatLogMessage)
    {m : ChatLogMessage} (hm : m ∈ sorted) {w : Int}
    (hw : parseTimestampToMs host m = some w) : baseTimestamp host sorted ≤ w := by
  have hwmem : w ∈ sorted.filterMap (parseTimestampToMs host) :=
    List.mem_filterMap.mpr ⟨m, hm, hw⟩
  simp only [baseTimestamp]
  rw [if_pos (List.length_pos.mpr (List.ne_nil_of_mem hwmem))]
  exact jsMinList_le hwmem

end ChatLog

/-! ## C3 and C9: chat-log ordering and the pre-filter baseline -/

/-- C3 (amended): for chat-log inputs whose timestamps all resolve, emitted
turns are non-decreasing in resolved absolute time and every emitted `startMs`
is the message's resolved timestamp minus the minimum resolved timestamp over
all messages (hence ≥ 0); the first emitted turn's `startMs` is 0 *provided*
the minimum is attained by a message whose text survives the empty-text
filter (the code computes the baseline before filtering — see C9). -/
theorem c3_chat_log_ordering (host : JsHost) (input : ChatLogInput)
    (title : Option String)
    (hres : ∀ m ∈ input.messages, (ChatLog.parseTimestampToMs host m).isSome) :
    ((ChatLog.parseChatLog host input title).turns.Pairwise
      (fun t1 t2 => ∀ x y : Int, t1.startMs = some x → t2.startMs = some y → x ≤ y)) ∧
    (∀ t ∈ (ChatLog.parseChatLog host input title).turns, ∃ m w,
      m ∈ input.messages ∧ ChatLog.parseTimestampToMs host m = some w ∧
      t.startMs = some (w -
        ChatLog.baseTimestamp host (ChatLog.sortMessages host input.messages)) ∧
      0 ≤ w - ChatLog.baseTimestamp host (ChatLog.sortMessages host input.messages)) ∧
    ((∃ m ∈ input.messages,
        ChatLog.parseTimestampToMs host m =
          some (ChatLog.baseTimestamp host (ChatLog.sortMessages host input.messages)) ∧
        ChatLog.keepMsg m = true) →
      ∀ t0 : NormalizedTurn,
        (ChatLog.parseChatLog host input title).turns.head? = some t0 →
        t0.startMs = some 0) := by
  have hsortsub : ∀ m ∈ ChatLog.sortMessages host input.messages, m ∈ input.messages :=
    fun m hm => (ChatLog.sortMessages_perm host input.messages).subset hm
  have hpw := ChatLog.pairwise_sortMessages host input.messages hres
  have hpwf := hpw.filter ChatLog.keepMsg
  refine ⟨?_, ?_, ?_⟩
  · simp only [ChatLog.parseChatLog]
    refine mapWithIndex_pairwise ?_ 0 hpwf
    intro i j a b hab x y hx hy
    simp only [Option.map_eq_some'] at hx hy
    obtain ⟨xa, hxa, rfl⟩ := hx
    obtain ⟨yb, hyb, rfl⟩ := hy
    have := hab xa yb hxa hyb
    omega
  · intro t ht
    simp only [ChatLog.parseChatLog] at ht
    obtain ⟨i, m, hm, rfl⟩ := mem_mapWithIndex ht
    have hmsort : m ∈ ChatLog.sortMessages host input.messages := (List.mem_filter.mp hm).1
    have hmmem : m ∈ input.messages := hsortsub m hmsort
    obtain ⟨w, hw⟩ := Option.isSome_iff_exists.mp (hres m hmmem)
    have hbase := ChatLog.baseTimestamp_le host _ hmsort hw
    refine ⟨m, w, hmmem, hw, ?_, by omega⟩
    simp [hw]
  · rintro ⟨m, hmem, hbase, hkeep⟩ t0 h0
    have hmf : m ∈ (ChatLog.sortMessages host input.messages).filter ChatLog.keepMsg :=
      List.mem_filter.mpr
        ⟨(ChatLog.sortMessages_perm host input.messages).mem_iff.mpr hmem, hkeep⟩
    simp only [ChatLog.parseChatLog] at h0
    cases hfl : (ChatLog.sortMessages host input.messages).filter ChatLog.keepMsg with
    | nil => rw [hfl] at hmf; cases hmf
    | cons f0 fs =>
      rw [hfl] at h0
      simp only [mapWithIndex, List.head?_cons, Option.some.injEq] at h0
      have hf0sort : f0 ∈ ChatLog.sortMessages host input.messages := by
        have : f0 ∈ (ChatLog.sortMessages host input.messages).filter ChatLog.keepMsg := by
          rw [hfl]; exact List.mem_cons_self f0 fs
        exact (List.mem_filter.mp this).1
      obtain ⟨w0, hw0⟩ := Option.isSome_iff_exists.mp (hres f0 (hsortsub f0 hf0sort))
      have hge : ChatLog.baseTimestamp host (ChatLog.sortMessages host input.messages) ≤ w0 :=
        ChatLog.baseTimestamp_le host _ hf0sort hw0
      have hle : w0 ≤ ChatLog.baseTimestamp host (ChatLog.sortMessages host input.messages) := by
        rw [hfl] at hmf
        rcases List.mem_cons.mp hmf with rfl | hmf'
        · rw [hbase] at hw0
          exact le_of_eq (Option.some.inj hw0).symm
        · rw [hfl] at hpwf
          exact List.rel_of_pairwise_cons hpwf hmf' w0 _ hw0 hbase
      have hw0base : w0 = ChatLog.baseTimestamp host (ChatLog.sortMessages host input.messages) :=
        le_antisymm hle hge
      rw [← h0]
      simp [hw0, hw0base]

/-- A chat log whose earliest-timestamped message has empty text: all
timestamps resolve, yet the first emitted turn's offset is positive. -/
def cexCl : ChatLogInput :=
  { title := none, channel := none,
    messages := [mkMsg (some "Ann") (some "1000") (some ""),
      mkMsg (some "Bob") (some "2000") (some "hi")] }

/-- C3 counterexample: every message's timestamp resolves, but the single
emitted turn's `startMs` is 1000000, not 0 — the minimum-timestamp message was
dropped for empty text after the baseline had been computed. -/
theorem c3_counterexample :
    (cexCl.messages.all (fun m => (ChatLog.parseTimestampToMs hostNone m).isSome)) = true ∧
    (ChatLog.parseChatLog hostNone cexCl none).turns.map (fun t => t.startMs) =
      [some 1000000] := by decide

def clPair : ChatLogInput :=
  { title := none, channel := none,
    messages := [mkMsg (some "Alice") (some "1000") (some "hi"),
      mkMsg (some "Bob") (some "2000") (some "yo")] }

def c3turn : NormalizedTurn :=
  { speaker := "Alice", text := "hi", startMs := some 0, endMs := none,
    turnIndex := 0, metadata := [] }

/-- C3 witness: the amended ordering theorem applied to a two-message chat
log whose earliest message is kept. -/
theorem c3_chat_log_ordering_witness :
    (∀ m ∈ clPair.messages, (ChatLog.parseTimestampToMs hostNone m).isSome) ∧
    (ChatLog.parseChatLog hostNone clPair none).turns.head? = some c3turn ∧
    c3turn.startMs = some 0 :=
  ⟨by decide, by decide,
    (c3_chat_log_ordering hostNone clPair none (by decide)).2.2
      ⟨mkMsg (some "Alice") (some "1000") (some "hi"), by decide, by decide, by decide⟩
      c3turn (by decide)⟩

/-- C9: the rebasing baseline is the minimum resolved timestamp over all
messages, dropped ones included: when every message resolves and every kept
(non-empty-text) message's timestamp lies strictly above the baseline — i.e.
the earliest-timestamped message has empty text — every emitted turn's
`startMs` is its message's resolved timestamp minus that pre-filter baseline
and is strictly positive, in particular for the first emitted turn. -/
theorem c9_baseline_before_filter (host : JsHost) (input : ChatLogInput)
    (title : Option String)
    (hres : ∀ m ∈ input.messages, (ChatLog.parseTimestampToMs host m).isSome)
    (hmin : ∀ m ∈ input.messages, ChatLog.keepMsg m = true →
      ChatLog.baseTimestamp host (ChatLog.sortMessages host input.messages) <
        (ChatLog.parseTimestampToMs host m).getD 0) :
    ∀ t ∈ (ChatLog.parseChatLog host input title).turns, ∃ m w,
      m ∈ input.messages ∧ ChatLog.parseTimestampToMs host m = some w ∧
      ChatLog.keepMsg m = true ∧
      t.startMs = some (w -
        ChatLog.baseTimestamp host (ChatLog.sortMessages host input.messages)) ∧
      0 < w - ChatLog.baseTimestamp host (ChatLog.sortMessages host input.messages) := by
  intro t ht
  simp only [ChatLog.parseChatLog] at ht
  obtain ⟨i, m, hm, rfl⟩ := mem_mapWithIndex ht
  have hmsort : m ∈ ChatLog.sortMessages host input.messages := (List.mem_filter.mp hm).1
  have hkeep : ChatLog.keepMsg m = true := (List.mem_filter.mp hm).2
  have hmmem : m ∈ input.messages :=
    (ChatLog.sortMessages_perm host input.messages).subset hmsort
  obtain ⟨w, hw⟩ := Option.isSome_iff_exists.mp (hres m hmmem)
  have hlt := hmin m hmmem hkeep
  rw [hw] at hlt
  simp only [Option.getD_some] at hlt
  refine ⟨m, w, hmmem, hw, hkeep, ?_, by omega⟩
  simp [hw]

/-- C9 witness: the baseline theorem applied to the concrete dropped-earliest
chat log. -/
theorem c9_baseline_before_filter_witness :
    (∀ m ∈ cexCl.messages, (ChatLog.parseTimestampToMs hostNone m).isSome) ∧
    ((ChatLog.parseChatLog hostNone cexCl none).turns.getD 0 defaultTurn ∈
      (ChatLog.parseChatLog hostNone cexCl none).turns) ∧
    (∃ m w, m ∈ cexCl.messages ∧ ChatLog.parseTimestampToMs hostNone m = some w ∧
      ChatLog.keepMsg m = true ∧
      ((ChatLog.parseChatLog hostNone cexCl none).turns.getD 0 defaultTurn).startMs =
        some (w - ChatLog.baseTimestamp hostNone
          (ChatLog.sortMessages hostNone cexCl.messages)) ∧
      0 < w - ChatLog.baseTimestamp hostNone
        (ChatLog.sortMessages hostNone cexCl.messages)) :=
  ⟨by decide, by decide,
    c9_baseline_before_filter hostNone cexCl none (by decide) (by decide) _ (by decide)⟩
